import Mathlib

/-!
Shallow embedding of QueryString.js (timmc/js-tools) and proofs about it.

JavaScript strings are modelled as lists of UTF-16 code units (naturals:
JStr).  Stateless functions of the source become Lean functions on JStr;
JS exceptions (URIError, from the strict built-in decodeURIComponent and
encodeURIComponent) become Option results.  The regex-replace scanners of
QueryString.decode are modelled as fuel-indexed left-to-right scans (the
fuel is the input length, which every step strictly decreases), so that
all definitions compute by kernel reduction.

The dict member of a QueryString object is modelled as a plain
insertion-ordered association list with unique keys.  The constructor's
dict lookup is a truthy test through the prototype chain: when the
decoded key names an inherited Object.prototype member (protoNames) and
has no own entry, the source calls .push on the inherited member and
throws a TypeError, modelled as a none result of the parse loop.  The
other dict traversals of the source (mapDict, keys, plus) guard with
hasOwnProperty, so no prototype lookup arises there and the association
list models them directly.
-/

/-- A JavaScript string: its sequence of UTF-16 code units. -/
abbrev JStr := List Nat

/-- Code units of a Lean string literal (BMP characters only), as a JStr. -/
def str (s : String) : JStr := s.data.map Char.toNat

/-- Uppercase hex digit test: the regex character class 0-9A-F. -/
def hexU (c : Nat) : Bool := (48 ≤ c && c ≤ 57) || (65 ≤ c && c ≤ 70)

/-- Value of an uppercase hex digit character. -/
def hexV (c : Nat) : Nat := if c ≤ 57 then c - 48 else c - 55

/-- Regex class E-F: first digit of a 3-byte UTF-8 lead escape. -/
def lead3 (c : Nat) : Bool := c == 69 || c == 70

/-- Regex class C-D: first digit of a 2-byte UTF-8 lead escape. -/
def lead2 (c : Nat) : Bool := c == 67 || c == 68

/-- Regex class 8-9A-B: first digit of a UTF-8 continuation escape. -/
def contD (c : Nat) : Bool := c == 56 || c == 57 || c == 65 || c == 66

/-- Regex class 0-7: first digit of a single-byte (ASCII) escape. -/
def asc1 (c : Nat) : Bool := 48 ≤ c && c ≤ 55

/-- The plus-to-space replacement shared by decode and by key decoding. -/
def plusSp (s : JStr) : JStr := s.map (fun c => if c == 43 then 32 else c)

/-- Shape of the 3-escape window %[EF][0-9A-F]%[89AB][0-9A-F]%[89AB][0-9A-F]
at the head of the string. -/
def shape3 (s : JStr) : Bool :=
  s.getD 0 999 == 37 && lead3 (s.getD 1 999) && hexU (s.getD 2 999) &&
  s.getD 3 999 == 37 && contD (s.getD 4 999) && hexU (s.getD 5 999) &&
  s.getD 6 999 == 37 && contD (s.getD 7 999) && hexU (s.getD 8 999)

/-- Replacement of the 3-escape callback: the matched text itself for overlong
or above-0xFFFF encodings, else the packed character. -/
def rep3 (s : JStr) : JStr :=
  let n1 := (hexV (s.getD 1 999) * 16 + hexV (s.getD 2 999)) - 224
  let n2 := (hexV (s.getD 4 999) * 16 + hexV (s.getD 5 999)) - 128
  let n3 := (hexV (s.getD 7 999) * 16 + hexV (s.getD 8 999)) - 128
  if n1 == 0 && n2 < 32 then s.take 9
  else if n1 * 4096 + n2 * 64 + n3 > 65535 then s.take 9
  else [n1 * 4096 + n2 * 64 + n3]

/-- Fuel-indexed scan of the 3-escape global replace. -/
def d3go : Nat → JStr → JStr
  | 0, s => s
  | _, [] => []
  | fuel + 1, c :: r =>
    if shape3 (c :: r) then rep3 (c :: r) ++ d3go fuel ((c :: r).drop 9)
    else c :: d3go fuel r

/-- The 3-byte UTF-8 pass of QueryString.decode. -/
def decode3s (s : JStr) : JStr := d3go s.length s

/-- Shape of the 2-escape window %[CD][0-9A-F]%[89AB][0-9A-F] at the head. -/
def shape2 (s : JStr) : Bool :=
  s.getD 0 999 == 37 && lead2 (s.getD 1 999) && hexU (s.getD 2 999) &&
  s.getD 3 999 == 37 && contD (s.getD 4 999) && hexU (s.getD 5 999)

/-- Replacement of the 2-escape callback: the matched text for overlong
encodings (masked lead below 2), else the packed character. -/
def rep2 (s : JStr) : JStr :=
  let n1 := (hexV (s.getD 1 999) * 16 + hexV (s.getD 2 999)) - 192
  let n2 := (hexV (s.getD 4 999) * 16 + hexV (s.getD 5 999)) - 128
  if n1 < 2 then s.take 6 else [n1 * 64 + n2]

/-- Fuel-indexed scan of the 2-escape global replace. -/
def d2go : Nat → JStr → JStr
  | 0, s => s
  | _, [] => []
  | fuel + 1, c :: r =>
    if shape2 (c :: r) then rep2 (c :: r) ++ d2go fuel ((c :: r).drop 6)
    else c :: d2go fuel r

/-- The 2-byte UTF-8 pass of QueryString.decode. -/
def decode2s (s : JStr) : JStr := d2go s.length s

/-- Shape of the single-escape window %[0-7][0-9A-F] at the head. -/
def shape1 (s : JStr) : Bool :=
  s.getD 0 999 == 37 && asc1 (s.getD 1 999) && hexU (s.getD 2 999)

/-- Replacement of the single-escape callback: always the decoded byte. -/
def rep1 (s : JStr) : JStr :=
  [hexV (s.getD 1 999) * 16 + hexV (s.getD 2 999)]

/-- Fuel-indexed scan of the single-escape global replace. -/
def d1go : Nat → JStr → JStr
  | 0, s => s
  | _, [] => []
  | fuel + 1, c :: r =>
    if shape1 (c :: r) then rep1 (c :: r) ++ d1go fuel ((c :: r).drop 3)
    else c :: d1go fuel r

/-- The single-byte pass of QueryString.decode. -/
def decode1s (s : JStr) : JStr := d1go s.length s

/-- QueryString.decode: tolerant percent-decoding, in the fixed order of the
source (plus-to-space, then the 3-byte, 2-byte and single-byte passes). -/
def QueryString.decode (s : JStr) : JStr :=
  decode1s (decode2s (decode3s (plusSp s)))

/-- Hex digit value, case-insensitive, as accepted by the built-in Decode. -/
def hexAny (c : Nat) : Option Nat :=
  if 48 ≤ c && c ≤ 57 then some (c - 48)
  else if 65 ≤ c && c ≤ 70 then some (c - 55)
  else if 97 ≤ c && c ≤ 102 then some (c - 87)
  else none

/-- Read k continuation escapes (%80 to %BF) for the built-in Decode. -/
def contRead : Nat → JStr → Option (List Nat × JStr)
  | 0, s => some ([], s)
  | k + 1, 37 :: h1 :: h2 :: r =>
    match hexAny h1, hexAny h2 with
    | some a, some b =>
      let byte := 16 * a + b
      if 128 ≤ byte && byte ≤ 191 then
        match contRead k r with
        | some (bs, rest) => some (byte :: bs, rest)
        | none => none
      else none
    | _, _ => none
  | _ + 1, _ => none

/-- Fuel-indexed ECMA-262 Decode with empty reserved set (the built-in
decodeURIComponent, used by the source to decode key tokens); none models a
thrown URIError. -/
def duriGo : Nat → JStr → Option JStr
  | _, [] => some []
  | 0, _ :: _ => none
  | fuel + 1, 37 :: r =>
    (match r with
     | h1 :: h2 :: r2 =>
       (match hexAny h1, hexAny h2 with
        | some a, some b =>
          let byte := 16 * a + b
          if byte < 128 then (duriGo fuel r2).map (byte :: ·)
          else if byte < 192 then none
          else if 248 ≤ byte then none
          else
            let n := if byte < 224 then 2 else if byte < 240 then 3 else 4
            match contRead (n - 1) r2 with
            | none => none
            | some (bs, r3) =>
              let v := bs.foldl (fun acc cb => acc * 64 + (cb - 128))
                (byte - (if byte < 224 then 192 else if byte < 240 then 224 else 240))
              let minV := if byte < 224 then 128 else if byte < 240 then 2048 else 65536
              if v < minV then none
              else if 55296 ≤ v && v ≤ 57343 then none
              else if v < 65536 then (duriGo fuel r3).map (v :: ·)
              else if v ≤ 1114111 then
                (duriGo fuel r3).map (fun t => (55232 + v / 1024) :: (56320 + v % 1024) :: t)
              else none
        | _, _ => none)
     | _ => none)
  | fuel + 1, c :: r => (duriGo fuel r).map (c :: ·)

/-- The built-in decodeURIComponent; none models a thrown URIError. -/
def decodeURIComponent (s : JStr) : Option JStr := duriGo s.length s

/-- The unescapedSet of the built-in encodeURIComponent: alphanumerics and
the marks - _ . ! ~ * ( ) and the apostrophe. -/
def uriUnescaped (c : Nat) : Bool :=
  (65 ≤ c && c ≤ 90) || (97 ≤ c && c ≤ 122) || (48 ≤ c && c ≤ 57) ||
  c == 33 || c == 39 || c == 40 || c == 41 || c == 42 ||
  c == 45 || c == 46 || c == 95 || c == 126

/-- Uppercase hex digit character of a value below 16. -/
def hexDigU (n : Nat) : Nat := if n < 10 then 48 + n else 55 + n

/-- UTF-8 bytes of a code point. -/
def utf8Bytes (v : Nat) : List Nat :=
  if v < 128 then [v]
  else if v < 2048 then [192 + v / 64, 128 + v % 64]
  else if v < 65536 then [224 + v / 4096, 128 + v / 64 % 64, 128 + v % 64]
  else [240 + v / 262144, 128 + v / 4096 % 64, 128 + v / 64 % 64, 128 + v % 64]

/-- Percent-escapes (uppercase hex) of the UTF-8 bytes of a code point. -/
def escCP (v : Nat) : JStr :=
  ((utf8Bytes v).map (fun b => [37, hexDigU (b / 16), hexDigU (b % 16)])).flatten

/-- Fuel-indexed ECMA-262 Encode with the encodeURIComponent unescaped set;
none models the URIError thrown on lone surrogates. -/
def euriGo : Nat → JStr → Option JStr
  | _, [] => some []
  | 0, _ :: _ => none
  | fuel + 1, c :: r =>
    if uriUnescaped c then (euriGo fuel r).map (c :: ·)
    else if c < 55296 || 57343 < c then (euriGo fuel r).map (escCP c ++ ·)
    else if 56320 ≤ c then none
    else
      match r with
      | [] => none
      | c2 :: r2 =>
        if 56320 ≤ c2 && c2 ≤ 57343 then
          (euriGo fuel r2).map (escCP (65536 + (c - 55296) * 1024 + (c2 - 56320)) ++ ·)
        else none

/-- The built-in encodeURIComponent; none models a thrown URIError. -/
def encodeURIComponent (s : JStr) : Option JStr := euriGo s.length s

/-- Fuel-indexed scan of the textual replacement of every %20 by a plus. -/
def pGo : Nat → JStr → JStr
  | 0, s => s
  | _, [] => []
  | fuel + 1, c :: r =>
    if c == 37 && r.getD 0 999 == 50 && r.getD 1 999 == 48 then 43 :: pGo fuel (r.drop 2)
    else c :: pGo fuel r

/-- The global replace of %20 by + performed by QueryString.encode. -/
def plusify (s : JStr) : JStr := pGo s.length s

/-- QueryString.encode: encodeURIComponent, then every %20 becomes +. -/
def QueryString.encode (s : JStr) : Option JStr := (encodeURIComponent s).map plusify

/-- One parsed pair, with encoded and decoded key and value; a none value is
the JS null marker of a key that had no equals sign. -/
structure QPair where
  key_enc : JStr
  key_dec : JStr
  val_enc : Option JStr
  val_dec : Option JStr
deriving DecidableEq, Repr

/-- The QueryString object: dict maps decoded keys to decoded value lists,
alist is the ordered pair list. -/
structure QueryString where
  dict : List (JStr × List (Option JStr))
  alist : List QPair
deriving DecidableEq, Repr

/-- Own-property lookup in the modelled dict. -/
def dictGet (d : List (JStr × List (Option JStr))) (k : JStr) :
    Option (List (Option JStr)) :=
  (d.find? (fun e => e.1 == k)).map (fun e => e.2)

/-- Key-token character class of the pair regex: anything but = and the
ampersand. -/
def notSep (c : Nat) : Bool := !(c == 61) && !(c == 38)

/-- Value-token character class of the pair regex: anything but the
ampersand. -/
def notAmp (c : Nat) : Bool := !(c == 38)

/-- Fuel-indexed scan finding the successive matches of the pair regex
([^=&]+)(=([^&]*))? left to right. -/
def tokGo : Nat → JStr → List (JStr × Option JStr)
  | 0, _ => []
  | _, [] => []
  | fuel + 1, c :: r =>
    if notSep c then
      if (r.dropWhile notSep).head? = some 61 then
        (c :: r.takeWhile notSep,
         some (((r.dropWhile notSep).drop 1).takeWhile notAmp)) ::
          tokGo fuel (((r.dropWhile notSep).drop 1).dropWhile notAmp)
      else (c :: r.takeWhile notSep, none) :: tokGo fuel (r.dropWhile notSep)
    else tokGo fuel r

/-- All matches of the pair regex over the input, in order. -/
def tokenize (s : JStr) : List (JStr × Option JStr) := tokGo s.length s

/-- The JS ToString coercion that encode applies to a null value. -/
def jsToStr : Option JStr → JStr
  | some s => s
  | none => [110, 117, 108, 108]

/-- Decoded form of a key token: pluses to spaces, then the strict built-in
decodeURIComponent (none models the URIError it can throw). -/
def keyDec (ke : JStr) : Option JStr := decodeURIComponent (plusSp ke)

/-- The own property names of Object.prototype in an ECMAScript host with
the Annex B legacy accessors (every standard browser): looking any of these
up on a plain object with no own entry still finds the inherited member
through the prototype chain, and every one of them is truthy (a function,
or the prototype object itself for the dunder-proto accessor). -/
def protoNames : List JStr :=
  [str "constructor", str "hasOwnProperty", str "isPrototypeOf",
   str "propertyIsEnumerable", str "toLocaleString", str "toString",
   str "valueOf", str "__proto__", str "__defineGetter__",
   str "__defineSetter__", str "__lookupGetter__", str "__lookupSetter__"]

/-- Truthiness of the constructor's dict lookup: an own entry (a JS array,
always truthy, even when empty) or an inherited Object.prototype member
found through the prototype chain. -/
def dictTruthy (d : List (JStr × List (Option JStr))) (k : JStr) : Bool :=
  (dictGet d k).isSome || protoNames.contains k

/-- The two defined dict updates of the constructor loop: push onto an own
key's list, or create a one-element list for a fresh key.  The constructor
only reaches the create branch after its truthy lookup came back false (see
addTok); groupProj uses the same grouped update as the spec's projection. -/
def dictAdd (d : List (JStr × List (Option JStr))) (k : JStr) (v : Option JStr) :
    List (JStr × List (Option JStr)) :=
  if (dictGet d k).isSome then d.map (fun e => if e.1 == k then (e.1, e.2 ++ [v]) else e)
  else d ++ [(k, [v])]

/-- Body of the constructor parse loop: decode one token and append it.  The
source tests its dict lookup for truthiness and calls .push on the found
value: when the lookup is truthy without an own entry, the value found is an
inherited Object.prototype member, and calling .push on a function (or on
the prototype object) throws a TypeError, modelled as none; a truthy own
entry is pushed onto and a falsy lookup creates the entry (dictAdd). -/
def addTok (q : QueryString) (t : JStr × Option JStr) : Option QueryString :=
  match keyDec t.1 with
  | none => none
  | some kd =>
    if dictTruthy q.dict kd && (dictGet q.dict kd).isNone then none
    else some ⟨dictAdd q.dict kd (t.2.map QueryString.decode),
      q.alist ++ [⟨t.1, kd, t.2, t.2.map QueryString.decode⟩]⟩

/-- The QueryString constructor on an explicit string: strip one leading
question mark, then run the parse loop over the regex matches; none models a
URIError thrown by the strict decoding of some key token. -/
def QueryString.parse (s : JStr) : Option QueryString :=
  (tokenize (if s.getD 0 999 == 63 then s.drop 1 else s)).foldlM addTok ⟨[], []⟩

/-- value(key): the last value recorded for the key; none models undefined. -/
def QueryString.value (q : QueryString) (k : JStr) : Option (Option JStr) :=
  match dictGet q.dict k with
  | none => none
  | some vs => vs.getLast?

/-- values(key): all values recorded for the key, in order. -/
def QueryString.values (q : QueryString) (k : JStr) : List (Option JStr) :=
  match dictGet q.dict k with
  | none => []
  | some vs => vs

/-- keys(): the distinct decoded keys (enumeration modelled as insertion
order). -/
def QueryString.keys (q : QueryString) : List JStr := q.dict.map (fun e => e.1)

/-- plus(k, v): a new object with one pair appended; the new pair's encoded
forms come from encode, so none models a URIError raised there. -/
def QueryString.plus (q : QueryString) (k : JStr) (v : Option JStr) :
    Option QueryString :=
  let dict' := if (dictGet q.dict k).isSome
    then q.dict.map (fun e => if e.1 == k then (e.1, e.2 ++ [v]) else e)
    else q.dict ++ [(k, [v])]
  match QueryString.encode k, QueryString.encode (jsToStr v) with
  | some ke, some ve => some ⟨dict', q.alist ++ [⟨ke, k, some ve, v⟩]⟩
  | _, _ => none

/-- minus(k), the one-argument form: drop the key's dict entry and every
alist pair with that decoded key. -/
def QueryString.minus (q : QueryString) (k : JStr) : QueryString :=
  ⟨q.dict.filter (fun e => !(e.1 == k)),
   q.alist.filter (fun p => !(p.key_dec == k))⟩

/-- minus(k, v), the two-argument form, exactly as the source computes it:
the mapDict callback filters the value out of every key's list (its key
argument ok is not consulted in this branch) and drops entries left empty,
while the alist filter checks both decoded key and decoded value. -/
def QueryString.minus2 (q : QueryString) (k : JStr) (v : Option JStr) : QueryString :=
  ⟨((q.dict.map (fun e => (e.1, e.2.filter (fun el => !(el == v))))).filter
      (fun e => !e.2.isEmpty)),
   q.alist.filter (fun p => !(p.key_dec == k && p.val_dec == v))⟩

/-- Text of one pair in toString: the stored encoded key, then = and the
stored encoded value unless the value is the null marker. -/
def pairText (p : QPair) : JStr :=
  p.key_enc ++ (match p.val_enc with | some v => 61 :: v | none => [])

/-- toString(): empty for an empty pair list, else a question mark followed
by the pair texts, built by the accumulate-with-leading-ampersand loop and
the final substring(1) of the source. -/
def QueryString.toString (q : QueryString) : JStr :=
  if q.alist.isEmpty then []
  else 63 :: (q.alist.foldl (fun acc p => acc ++ 38 :: pairText p) []).drop 1

/-- The grouped-by-decoded-key projection of a pair list: the mapping that
the data-model invariant says dict always equals (keys in first-appearance
order, each with its decoded values in pair order). -/
def groupProj (al : List QPair) : List (JStr × List (Option JStr)) :=
  al.foldl (fun d p => dictAdd d p.key_dec p.val_dec) []

/-- The RFC 3986 unreserved set: ALPHA, DIGIT, hyphen, period, underscore,
tilde. -/
def rfcUnreserved (c : Nat) : Bool :=
  (65 ≤ c && c ≤ 90) || (97 ≤ c && c ≤ 122) || (48 ≤ c && c ≤ 57) ||
  c == 45 || c == 46 || c == 95 || c == 126

/-- Well-formed encode output: every character is an unescapedSet literal, a
plus (produced from %20), or part of a percent-escape with uppercase hex
digits, so no character outside the unescaped set appears unescaped. -/
inductive EncWF : JStr → Prop
  | nil : EncWF []
  | lit {c : Nat} {r : JStr} : uriUnescaped c = true → EncWF r → EncWF (c :: r)
  | plus {r : JStr} : EncWF r → EncWF (43 :: r)
  | esc {h1 h2 : Nat} {r : JStr} : hexU h1 = true → hexU h2 = true → EncWF r →
      EncWF (37 :: h1 :: h2 :: r)

/-- The ampersand join of the serialization, as the spec words it. -/
def joinAmp : List JStr → JStr
  | [] => []
  | [x] => x
  | x :: y :: xs => x ++ 38 :: joinAmp (y :: xs)

/-- toString as the spec words it: empty when there are no pairs, else a
question mark followed by the ampersand-joined pair texts. -/
def toStringSpec (q : QueryString) : JStr :=
  if q.alist = [] then [] else 63 :: joinAmp (q.alist.map pairText)

/-- Per-character chunk of raw encodeURIComponent output. -/
def encChunk (c : Nat) : JStr := if uriUnescaped c then [c] else escCP c

/-- Per-character chunk of encode output (after %20 became +). -/
def plusChunk (c : Nat) : JStr := if c == 32 then [43] else encChunk c

/-- Per-character chunk after decode's plus-to-space pass undid the +. -/
def spChunk (c : Nat) : JStr := if uriUnescaped c || c == 32 then [c] else escCP c

/-- Per-character chunk after the 3-byte pass of decode. -/
def c3Chunk (c : Nat) : JStr := if 2048 ≤ c then [c] else spChunk c

/-- Per-character chunk after the 2-byte pass of decode. -/
def c2Chunk (c : Nat) : JStr := if 128 ≤ c then [c] else c3Chunk c

/-- Mutable array store: the JS Array objects reachable from QueryString
instances, addressed by reference (index).  varrs holds dict value arrays,
parrs holds alist pair arrays.  Pair records and object field values are
immutable in the source (never reassigned after construction), so they are
modelled as plain values. -/
structure Store where
  varrs : List (List (Option JStr))
  parrs : List (List QPair)
deriving DecidableEq, Repr

/-- A QueryString object over a store: dict entries and the alist field
hold array references. -/
structure HQS where
  dict : List (JStr × Nat)
  alist : Nat
deriving DecidableEq, Repr

/-- Dereference a value array. -/
def readV (σ : Store) (r : Nat) : List (Option JStr) := σ.varrs.getD r []

/-- Dereference a pair array. -/
def readP (σ : Store) (r : Nat) : List QPair := σ.parrs.getD r []

/-- Allocate a fresh value array (an array literal or a slice copy). -/
def allocV (σ : Store) (a : List (Option JStr)) : Store × Nat :=
  (⟨σ.varrs ++ [a], σ.parrs⟩, σ.varrs.length)

/-- Allocate a fresh pair array. -/
def allocP (σ : Store) (a : List QPair) : Store × Nat :=
  (⟨σ.varrs, σ.parrs ++ [a]⟩, σ.parrs.length)

/-- Array.prototype.push on a value array: an in-place store update. -/
def pushV (σ : Store) (r : Nat) (v : Option JStr) : Store :=
  ⟨σ.varrs.set r (σ.varrs.getD r [] ++ [v]), σ.parrs⟩

/-- Array.prototype.push on a pair array: an in-place store update. -/
def pushP (σ : Store) (r : Nat) (p : QPair) : Store :=
  ⟨σ.varrs, σ.parrs.set r (σ.parrs.getD r [] ++ [p])⟩

/-- The mapDict pass of plus for an existing key: the matching entry gets a
slice copy of its array with the new value then pushed onto the copy; every
other entry shares its array by reference with the receiver. -/
def plusDictH (k : JStr) (v : Option JStr) :
    Store → List (JStr × Nat) → Store × List (JStr × Nat)
  | σ, [] => (σ, [])
  | σ, (ok, r) :: es =>
    if ok == k then
      let a := allocV σ (readV σ r)
      let σ2 := pushV a.1 a.2 v
      let b := plusDictH k v σ2 es
      (b.1, (ok, a.2) :: b.2)
    else
      let b := plusDictH k v σ es
      (b.1, (ok, r) :: b.2)

/-- plus on the store model.  The fresh receiver allocated by the bare
constructor call is immediately overwritten field by field, so only the
final field values are modelled (the ambient-location parse inside that
call is an external collaborator, assumed benign). -/
def plusH (σ : Store) (q : HQS) (k : JStr) (v : Option JStr) :
    Option (Store × HQS) :=
  let d := if (q.dict.find? (fun e => e.1 == k)).isSome
    then plusDictH k v σ q.dict
    else
      let a := allocV σ [v]
      (a.1, q.dict ++ [(k, a.2)])
  let al := allocP d.1 (readP d.1 q.alist)
  match QueryString.encode k, QueryString.encode (jsToStr v) with
  | some ke, some ve => some (pushP al.1 al.2 ⟨ke, k, some ve, v⟩, ⟨d.2, al.2⟩)
  | _, _ => none

/-- minus(k) on the store model: surviving dict entries share their arrays
by reference; the new alist is the fresh array built by the filter helper
(whose internal pushes touch only its own fresh array). -/
def minusH (σ : Store) (q : HQS) (k : JStr) : Store × HQS :=
  let al := allocP σ ((readP σ q.alist).filter (fun p => !(p.key_dec == k)))
  (al.1, ⟨q.dict.filter (fun e => !(e.1 == k)), al.2⟩)

/-- The mapDict pass of two-argument minus: every entry gets a fresh
filtered array; entries left empty are dropped. -/
def minus2DictH (v : Option JStr) :
    Store → List (JStr × Nat) → Store × List (JStr × Nat)
  | σ, [] => (σ, [])
  | σ, (ok, r) :: es =>
    let vs := (readV σ r).filter (fun el => !(el == v))
    if vs.isEmpty then minus2DictH v σ es
    else
      let a := allocV σ vs
      let b := minus2DictH v a.1 es
      (b.1, (ok, a.2) :: b.2)

/-- minus(k, v) on the store model. -/
def minus2H (σ : Store) (q : HQS) (k : JStr) (v : Option JStr) : Store × HQS :=
  let d := minus2DictH v σ q.dict
  let al := allocP d.1 ((readP d.1 q.alist).filter
    (fun p => !(p.key_dec == k && p.val_dec == v)))
  (al.1, ⟨d.2, al.2⟩)

/-- value(key) read over the store. -/
def valueH (σ : Store) (q : HQS) (k : JStr) : Option (Option JStr) :=
  match q.dict.find? (fun e => e.1 == k) with
  | none => none
  | some e => (readV σ e.2).getLast?

/-- values(key) read over the store. -/
def valuesH (σ : Store) (q : HQS) (k : JStr) : List (Option JStr) :=
  match q.dict.find? (fun e => e.1 == k) with
  | none => []
  | some e => readV σ e.2

/-- keys() read over the store (depends only on the object itself). -/
def keysH (q : HQS) : List JStr := q.dict.map (fun e => e.1)

/-- toString() read over the store. -/
def toStringH (σ : Store) (q : HQS) : JStr :=
  if (readP σ q.alist).isEmpty then []
  else 63 :: ((readP σ q.alist).foldl (fun acc p => acc ++ 38 :: pairText p) []).drop 1

/-- Deep read of an object: its dict with dereferenced value arrays, and
its dereferenced pair array. -/
def readQS (σ : Store) (q : HQS) : List (JStr × List (Option JStr)) × List QPair :=
  (q.dict.map (fun e => (e.1, readV σ e.2)), readP σ q.alist)

/-- Reference validity of an object in a store. -/
def okQS (σ : Store) (q : HQS) : Prop :=
  (∀ e ∈ q.dict, e.2 < σ.varrs.length) ∧ q.alist < σ.parrs.length

/-- Store evolution that preserves every already-allocated array. -/
def StorePres (σ σ' : Store) : Prop :=
  σ.varrs.length ≤ σ'.varrs.length ∧ σ.parrs.length ≤ σ'.parrs.length ∧
  (∀ i, i < σ.varrs.length → readV σ' i = readV σ i) ∧
  (∀ j, j < σ.parrs.length → readP σ' j = readP σ j)

/-- All observations of one object agree between two stores. -/
def obsEq (σ σ' : Store) (q : HQS) : Prop :=
  readQS σ' q = readQS σ q ∧
  (∀ k : JStr, valueH σ' q k = valueH σ q k ∧ valuesH σ' q k = valuesH σ q k) ∧
  toStringH σ' q = toStringH σ q

/-- Character classes guaranteed for every token the pair regex produces:
a nonempty key without separators, and a value without ampersands. -/
def goodTok (t : JStr × Option JStr) : Prop :=
  t.1 ≠ [] ∧ (∀ c ∈ t.1, notSep c = true) ∧
    ∀ v, t.2 = some v → ∀ c ∈ v, notAmp c = true

/-- The query-string text of one token, as toString re-renders a pair that
kept its original encoded forms. -/
def segTok (t : JStr × Option JStr) : JStr :=
  t.1 ++ (match t.2 with | some v => 61 :: v | none => [])


/-- C5: parsing "?a=b&foo=bar&blank=&foo=baz&missing&&&" yields exactly the
decoded pairs (a,b) (foo,bar) (blank,"") (foo,baz) (missing,null) in that
order, with the empty segments of the trailing ampersands contributing no
pairs; values("foo") is [bar, baz], value("missing") is the null marker
(not the empty string), and value("blank") is the empty string. -/
theorem C5_parse_example :
    (QueryString.parse (str "?a=b&foo=bar&blank=&foo=baz&missing&&&")).map
        (fun q => q.alist.map (fun p => (p.key_dec, p.val_dec))) =
      some [(str "a", some (str "b")), (str "foo", some (str "bar")),
            (str "blank", some (str "")), (str "foo", some (str "baz")),
            (str "missing", none)] ∧
    (QueryString.parse (str "?a=b&foo=bar&blank=&foo=baz&missing&&&")).map
        (fun q => q.values (str "foo")) =
      some [some (str "bar"), some (str "baz")] ∧
    (QueryString.parse (str "?a=b&foo=bar&blank=&foo=baz&missing&&&")).map
        (fun q => q.value (str "missing")) = some (some none) ∧
    (QueryString.parse (str "?a=b&foo=bar&blank=&foo=baz&missing&&&")).map
        (fun q => q.value (str "blank")) = some (some (some (str ""))) := by
  decide

/-- C1: the dict-equals-grouped-alist invariant is broken by the
two-argument minus, whose mapDict callback ignores which key it is
filtering: after parsing "?a=x&b=x" and removing the pair (a,x), the dict
is empty while the grouped projection of the surviving pair list still
holds the key b with value x. -/
theorem C1_minus2_breaks_dict_alist_invariant :
    (QueryString.parse (str "?a=x&b=x")).map
        (fun q => (q.minus2 (str "a") (some (str "x"))).dict) = some [] ∧
    (QueryString.parse (str "?a=x&b=x")).map
        (fun q => groupProj (q.minus2 (str "a") (some (str "x"))).alist) =
      some [(str "b", [some (str "x")])] := by
  decide

/-- C2: two-argument minus does not leave other keys untouched: after
parsing "?a=x&b=x", removing (a,x) changes values("b") from [x] to []
even though the pair (b,x) survives in the pair list. -/
theorem C2_minus2_corrupts_other_keys :
    (QueryString.parse (str "?a=x&b=x")).map
        (fun q => q.values (str "b")) = some [some (str "x")] ∧
    (QueryString.parse (str "?a=x&b=x")).map
        (fun q => (q.minus2 (str "a") (some (str "x"))).values (str "b")) =
      some [] ∧
    (QueryString.parse (str "?a=x&b=x")).map
        (fun q => (q.minus2 (str "a") (some (str "x"))).alist.map
          (fun p => (p.key_dec, p.val_dec))) =
      some [(str "b", some (str "x"))] := by
  decide

/-- C3 counterexample: parsing a query string whose key token contains an
invalid percent-escape does not complete normally; the strict built-in
decoding of key tokens raises a URIError there (modelled as none). -/
theorem C3_cex_parse_invalid_key_escape :
    QueryString.parse (str "?%zz=1") = none := by decide

/-- C4 counterexample: the exclamation mark is outside the RFC 3986
unreserved set (it is a reserved sub-delim), yet encode leaves it
unescaped instead of producing %21, so encode does not percent-escape
every character outside the unreserved set. -/
theorem C4_cex_bang_unescaped :
    rfcUnreserved 33 = false ∧ QueryString.encode [33] = some [33] ∧
      QueryString.encode [33] ≠ some (str "%21") := by decide

theorem foldSeg (ps : List QPair) : ∀ acc : JStr,
    ps.foldl (fun acc p => acc ++ 38 :: pairText p) acc =
      acc ++ (ps.map (fun p => 38 :: pairText p)).flatten := by
  induction ps with
  | nil => intro acc; simp
  | cons p ps ih => intro acc; simp [ih, List.append_assoc]

theorem joinAmp_eq (x : JStr) (xs : List JStr) :
    joinAmp (x :: xs) = x ++ (xs.map (fun y => 38 :: y)).flatten := by
  induction xs generalizing x with
  | nil => simp [joinAmp]
  | cons y ys ih => simp [joinAmp, ih y]

theorem toString_eq_spec (q : QueryString) :
    QueryString.toString q = toStringSpec q := by
  unfold QueryString.toString toStringSpec
  cases h : q.alist with
  | nil => simp [h]
  | cons p ps =>
    simp only [h, List.isEmpty_cons, Bool.false_eq_true, if_false, foldSeg,
      List.map_cons, joinAmp_eq, List.map_map, List.flatten_cons, List.nil_append,
      List.cons_append, List.drop_succ_cons, List.drop_zero, reduceCtorEq]
    rfl

/-- C6: toString is empty for an empty pair sequence, else a question mark
followed by, for each pair in order joined by ampersands, the stored
encoded key and, exactly when the value is not the null marker, an equals
sign and the stored encoded value. -/
theorem C6_toString_shape (q : QueryString) :
    QueryString.toString q = toStringSpec q := toString_eq_spec q

theorem addTok_none_of_keyDec (q : QueryString) (t : JStr × Option JStr)
    (hk : keyDec t.1 = none) : addTok q t = none := by
  unfold addTok
  rw [hk]

theorem addTok_none_of_proto (q : QueryString) (t : JStr × Option JStr) {kd : JStr}
    (hk : keyDec t.1 = some kd) (hg : dictGet q.dict kd = none)
    (hp : protoNames.contains kd = true) : addTok q t = none := by
  unfold addTok dictTruthy
  rw [hk]
  dsimp only
  rw [hg, hp]
  simp

theorem addTok_some_step (q : QueryString) (t : JStr × Option JStr) {kd : JStr}
    (hk : keyDec t.1 = some kd)
    (hok : (dictGet q.dict kd).isSome = true ∨ protoNames.contains kd = false) :
    addTok q t = some ⟨dictAdd q.dict kd (t.2.map QueryString.decode),
      q.alist ++ [⟨t.1, kd, t.2, t.2.map QueryString.decode⟩]⟩ := by
  unfold addTok dictTruthy
  rw [hk]
  dsimp only
  rcases hg : dictGet q.dict kd with _ | vs
  · rcases hok with hok | hok
    · rw [hg] at hok
      exact absurd hok (by simp)
    · rw [hok]
      simp
  · simp

theorem dictGet_some_key {d : List (JStr × List (Option JStr))} {k : JStr}
    {vs : List (Option JStr)} (hg : dictGet d k = some vs) :
    ∃ e ∈ d, e.1 = k := by
  unfold dictGet at hg
  rcases hfind : d.find? (fun e => e.1 == k) with _ | e
  · rw [hfind] at hg
    cases hg
  · have hbeq := List.find?_some hfind
    have hmem := List.mem_of_find?_eq_some hfind
    exact ⟨e, hmem, by simpa using hbeq⟩

theorem dictAdd_clean {d : List (JStr × List (Option JStr))} {k : JStr}
    (v : Option JStr) (hd : ∀ e ∈ d, protoNames.contains e.1 = false)
    (hk : protoNames.contains k = false) :
    ∀ e ∈ dictAdd d k v, protoNames.contains e.1 = false := by
  intro e he
  unfold dictAdd at he
  split at he
  · rcases List.mem_map.1 he with ⟨e0, he0, rfl⟩
    by_cases hb : (e0.1 == k) = true
    · simp only [hb, if_true]
      exact hd e0 he0
    · have hb' : (e0.1 == k) = false := by simpa using hb
      simp only [hb', Bool.false_eq_true, if_false]
      exact hd e0 he0
  · rcases List.mem_append.1 he with he | he
    · exact hd e he
    · rcases List.mem_singleton.1 he with rfl
      exact hk

theorem foldlM_addTok_isSome (toks : List (JStr × Option JStr)) :
    ∀ q : QueryString, (∀ e ∈ q.dict, protoNames.contains e.1 = false) →
      ((toks.foldlM addTok q).isSome = true ↔
        ∀ t ∈ toks, ∃ kd, keyDec t.1 = some kd ∧ protoNames.contains kd = false) := by
  induction toks with
  | nil => intro q _; simp
  | cons t ts ih =>
    intro q hq
    rw [List.foldlM_cons]
    cases hk : keyDec t.1 with
    | none =>
      rw [addTok_none_of_keyDec q t hk]
      simp only [Option.bind_eq_bind, Option.none_bind, Option.isSome_none,
        Bool.false_eq_true, false_iff]
      intro hall
      rcases hall t (by simp) with ⟨kd, hkd, _⟩
      rw [hk] at hkd
      cases hkd
    | some kd =>
      rcases hg : dictGet q.dict kd with _ | vs
      · by_cases hp : protoNames.contains kd = true
        · rw [addTok_none_of_proto q t hk hg hp]
          simp only [Option.bind_eq_bind, Option.none_bind, Option.isSome_none,
            Bool.false_eq_true, false_iff]
          intro hall
          rcases hall t (by simp) with ⟨kd', hkd', hcp'⟩
          rw [hk] at hkd'
          cases hkd'
          rw [hp] at hcp'
          exact Bool.noConfusion hcp'
        · have hp' : protoNames.contains kd = false := by simpa using hp
          rw [addTok_some_step q t hk (Or.inr hp')]
          simp only [Option.bind_eq_bind, Option.some_bind]
          have hq1 := dictAdd_clean (t.2.map QueryString.decode) hq hp'
          rw [ih _ hq1]
          constructor
          · intro hts t' ht'
            rcases List.mem_cons.1 ht' with rfl | hmem
            · exact ⟨kd, hk, hp'⟩
            · exact hts t' hmem
          · intro hall t' ht'
            exact hall t' (List.mem_cons_of_mem t ht')
      · have hkd_np : protoNames.contains kd = false := by
          rcases dictGet_some_key hg with ⟨e, hmem, hek⟩
          rw [← hek]
          exact hq e hmem
        rw [addTok_some_step q t hk (Or.inl (by rw [hg]; rfl))]
        simp only [Option.bind_eq_bind, Option.some_bind]
        have hq1 := dictAdd_clean (t.2.map QueryString.decode) hq hkd_np
        rw [ih _ hq1]
        constructor
        · intro hts t' ht'
          rcases List.mem_cons.1 ht' with rfl | hmem
          · exact ⟨kd, hk, hkd_np⟩
          · exact hts t' hmem
        · intro hall t' ht'
          exact hall t' (List.mem_cons_of_mem t ht')

/-- C3 amended: decode itself is total (a plain function in this model: no
escape is ever a failure) and a malformed percent-escape in a value token
never fails, but construction is not total on arbitrary input: parsing
completes normally exactly when every key token both survives the strict
built-in decodeURIComponent (a malformed escape there raises a URIError) and
decodes to a key that is not an inherited Object.prototype member name (for
such a key the constructor's truthy prototype-chain dict lookup finds the
inherited member and calling .push on it raises a TypeError). -/
theorem C3_amended_parse_succeeds_iff_keys_safe (s : JStr) :
    (QueryString.parse s).isSome = true ↔
      ∀ t ∈ tokenize (if s.getD 0 999 == 63 then s.drop 1 else s),
        ∃ kd, keyDec t.1 = some kd ∧ protoNames.contains kd = false := by
  unfold QueryString.parse
  exact foldlM_addTok_isSome _ ⟨[], []⟩ (by simp)

/-- The prototype-chain error path of the constructor in action: the key
token toString strictly decodes (to itself), yet construction raises,
because the truthy dict lookup finds the inherited Object.prototype member
and calls .push on a function. -/
theorem parse_proto_key_raises :
    keyDec (str "toString") = some (str "toString") ∧
      QueryString.parse (str "?toString=1") = none := by decide

theorem hexU_hexDigU {n : Nat} (h : n < 16) : hexU (hexDigU n) = true := by
  unfold hexU hexDigU
  split <;> (simp only [Bool.or_eq_true, Bool.and_eq_true, decide_eq_true_eq]; omega)

theorem escWF {b : Nat} (hb : b < 256) {r : JStr} (hr : EncWF r) :
    EncWF (37 :: hexDigU (b / 16) :: hexDigU (b % 16) :: r) :=
  EncWF.esc (hexU_hexDigU (by omega)) (hexU_hexDigU (by omega)) hr

theorem escBytesWF (bs : List Nat) (hbs : ∀ b ∈ bs, b < 256) {r : JStr}
    (hr : EncWF r) :
    EncWF ((bs.map (fun b => [37, hexDigU (b / 16), hexDigU (b % 16)])).flatten ++ r) := by
  induction bs with
  | nil => simpa
  | cons b bs ih =>
    simp only [List.map_cons, List.flatten_cons, List.cons_append, List.nil_append,
      List.append_assoc]
    exact escWF (hbs b (by simp)) (ih (fun x hx => hbs x (by simp [hx])))

theorem utf8Bytes_lt {v : Nat} (hv : v ≤ 1114111) : ∀ b ∈ utf8Bytes v, b < 256 := by
  unfold utf8Bytes
  split
  · intro b hb; simp only [List.mem_singleton] at hb; omega
  · split
    · intro b hb
      simp only [List.mem_cons, List.not_mem_nil, or_false] at hb
      rcases hb with h | h <;> omega
    · split
      · intro b hb
        simp only [List.mem_cons, List.not_mem_nil, or_false] at hb
        rcases hb with h | h | h <;> omega
      · intro b hb
        simp only [List.mem_cons, List.not_mem_nil, or_false] at hb
        rcases hb with h | h | h | h <;> omega

theorem escCP_wf {v : Nat} (hv : v ≤ 1114111) {r : JStr} (hr : EncWF r) :
    EncWF (escCP v ++ r) :=
  escBytesWF (utf8Bytes v) (utf8Bytes_lt hv) hr

theorem euriGo_wf : ∀ (fuel : Nat) (s e : JStr), (∀ c ∈ s, c < 65536) →
    euriGo fuel s = some e → EncWF e := by
  intro fuel
  induction fuel with
  | zero =>
    intro s e hs he
    cases s with
    | nil => cases he; exact EncWF.nil
    | cons c r => cases he
  | succ fuel ih =>
    intro s e hs he
    cases s with
    | nil => cases he; exact EncWF.nil
    | cons c r =>
      have hc : c < 65536 := hs c (by simp)
      have hr : ∀ x ∈ r, x < 65536 := fun x hx => hs x (by simp [hx])
      unfold euriGo at he
      by_cases hu : uriUnescaped c = true
      · rw [if_pos hu] at he
        rcases Option.map_eq_some'.1 he with ⟨e', he', rfl⟩
        exact EncWF.lit hu (ih r e' hr he')
      · rw [if_neg hu] at he
        by_cases hb : (decide (c < 55296) || decide (57343 < c)) = true
        · rw [if_pos hb] at he
          rcases Option.map_eq_some'.1 he with ⟨e', he', rfl⟩
          exact escCP_wf (by omega) (ih r e' hr he')
        · rw [if_neg hb] at he
          simp only [Bool.or_eq_true, decide_eq_true_eq, not_or, not_lt] at hb
          by_cases htr : (56320 ≤ c) = True
          · simp only [eq_iff_iff, iff_true] at htr
            rw [if_pos (by simpa using htr)] at he
            cases he
          · simp only [eq_iff_iff, iff_true] at htr
            rw [if_neg (by simpa using htr)] at he
            cases r with
            | nil => cases he
            | cons c2 r2 =>
              dsimp only at he
              by_cases h2 : (decide (56320 ≤ c2) && decide (c2 ≤ 57343)) = true
              · rw [if_pos h2] at he
                rcases Option.map_eq_some'.1 he with ⟨e', he', rfl⟩
                simp only [Bool.and_eq_true, decide_eq_true_eq] at h2
                refine escCP_wf (by omega) (ih r2 e' (fun x hx => hr x (by simp [hx])) he')
              · rw [if_neg h2] at he
                cases he

theorem uriUnescaped_ne37 {c : Nat} (h : uriUnescaped c = true) : (c == 37) = false := by
  unfold uriUnescaped at h
  simp only [Bool.or_eq_true, Bool.and_eq_true, decide_eq_true_eq, beq_iff_eq] at h
  simp only [beq_eq_false_iff_ne, ne_eq]
  omega

theorem hexU_ne37 {c : Nat} (h : hexU c = true) : (c == 37) = false := by
  unfold hexU at h
  simp only [Bool.or_eq_true, Bool.and_eq_true, decide_eq_true_eq, beq_iff_eq] at h
  simp only [beq_eq_false_iff_ne, ne_eq]
  omega

theorem pGo_wf : ∀ (e : JStr), EncWF e → ∀ fuel, EncWF (pGo fuel e) := by
  intro e he
  induction he with
  | nil => intro fuel; cases fuel <;> exact EncWF.nil
  | @lit c r hc hr ih =>
    intro fuel
    cases fuel with
    | zero => exact EncWF.lit hc hr
    | succ f =>
      rw [pGo, uriUnescaped_ne37 hc, Bool.false_and, if_neg (by simp)]
      exact EncWF.lit hc (ih f)
  | @plus r hr ih =>
    intro fuel
    cases fuel with
    | zero => exact EncWF.plus hr
    | succ f =>
      rw [pGo]
      norm_num
      exact EncWF.plus (ih f)
  | @esc h1 h2 r hh1 hh2 hr ih =>
    intro fuel
    cases fuel with
    | zero => exact EncWF.esc hh1 hh2 hr
    | succ f =>
      rw [pGo]
      by_cases h20 : (h1 == 50 && h2 == 48) = true
      · simp only [Bool.and_eq_true, beq_iff_eq] at h20
        rw [if_pos (by simp [h20.1, h20.2])]
        simpa using EncWF.plus (ih f)
      · rw [if_neg (by
          simp only [Bool.and_eq_true, beq_iff_eq] at h20
          simp only [List.getD, Bool.and_eq_true, beq_iff_eq, decide_eq_true_eq]
          intro h
          exact h20 ⟨h.1.2, h.2⟩)]
        cases f with
        | zero => exact EncWF.esc hh1 hh2 hr
        | succ f' =>
          rw [pGo, hexU_ne37 hh1, Bool.false_and, if_neg (by simp)]
          cases f' with
          | zero => exact EncWF.esc hh1 hh2 hr
          | succ f'' =>
            rw [pGo, hexU_ne37 hh2, Bool.false_and, if_neg (by simp)]
            exact EncWF.esc hh1 hh2 (ih f'')

theorem encode_wf {s e : JStr} (hs : ∀ c ∈ s, c < 65536)
    (he : QueryString.encode s = some e) : EncWF e := by
  unfold QueryString.encode encodeURIComponent at he
  rcases Option.map_eq_some'.1 he with ⟨e', he', rfl⟩
  exact pGo_wf e' (euriGo_wf _ _ _ hs he') _

/-- C4 amended: encode percent-escapes (uppercase hex) every character
outside the built-in unescapedSet of encodeURIComponent, which is the RFC
unreserved set extended by the reserved marks ! * ( ) and the apostrophe,
and every literal %20 then becomes a plus; so every output character is an
unescapedSet literal, a plus, or part of a percent-escape. -/
theorem C4_amended_encode_output_shape :
    ∀ s e : JStr, (∀ c ∈ s, c < 65536) → QueryString.encode s = some e →
      EncWF e :=
  fun _ _ hs he => encode_wf hs he

/-- Witness for the amended C4 at the input "a !". -/
theorem C4_amended_encode_output_shape_witness : EncWF (str "a+!") :=
  C4_amended_encode_output_shape (str "a !") (str "a+!") (by decide) (by decide)

theorem lenDW {α : Type} (p : α → Bool) (l : List α) :
    (l.dropWhile p).length ≤ l.length := by
  induction l with
  | nil => simp
  | cons c r ih =>
    rw [List.dropWhile_cons]
    split
    · exact Nat.le_succ_of_le ih
    · exact Nat.le_refl _

theorem tokGo_nil (f : Nat) : tokGo f [] = [] := by cases f <;> rfl

theorem tokGo_fuel : ∀ (f1 f2 : Nat) (s : JStr), s.length ≤ f1 → s.length ≤ f2 →
    tokGo f1 s = tokGo f2 s := by
  intro f1
  induction f1 with
  | zero =>
    intro f2 s h1 _
    have : s = [] := List.length_eq_zero.1 (Nat.le_zero.1 h1)
    subst this
    rw [tokGo_nil, tokGo_nil]
  | succ f ih =>
    intro f2 s h1 h2
    cases s with
    | nil => rw [tokGo_nil, tokGo_nil]
    | cons c r =>
      cases f2 with
      | zero => simp at h2
      | succ g =>
        have hr : r.length ≤ f := by simpa using h1
        have hrg : r.length ≤ g := by simpa using h2
        simp only [tokGo]
        by_cases hc : notSep c = true
        · simp only [hc, if_true]
          by_cases hh : (r.dropWhile notSep).head? = some 61
          · simp only [hh, if_pos]
            have hlen : (((r.dropWhile notSep).drop 1).dropWhile notAmp).length ≤ r.length := by
              have l1 := lenDW notSep r
              have l2 := lenDW notAmp ((r.dropWhile notSep).drop 1)
              have l3 : ((r.dropWhile notSep).drop 1).length ≤ (r.dropWhile notSep).length :=
                by rw [List.length_drop]; omega
              omega
            rw [ih g _ (Nat.le_trans hlen hr) (Nat.le_trans hlen hrg)]
          · simp only [hh, if_false]
            have hlen : (r.dropWhile notSep).length ≤ r.length := lenDW notSep r
            rw [ih g _ (Nat.le_trans hlen hr) (Nat.le_trans hlen hrg)]
        · simp only [hc, if_false]
          exact ih g r hr hrg

theorem tokenize_sep {c : Nat} (r : JStr) (hc : notSep c = false) :
    tokenize (c :: r) = tokenize r := by
  show tokGo (r.length + 1) (c :: r) = tokenize r
  simp only [tokGo, hc, if_false]
  rfl

theorem tokenize_val {c : Nat} {r r2 : JStr} (hc : notSep c = true)
    (hd : r.dropWhile notSep = 61 :: r2) :
    tokenize (c :: r) =
      (c :: r.takeWhile notSep, some (r2.takeWhile notAmp)) ::
        tokenize (r2.dropWhile notAmp) := by
  show tokGo (r.length + 1) (c :: r) = _
  simp only [tokGo, hc, if_true, hd, List.head?_cons, if_pos, List.drop_succ_cons,
    List.drop_zero]
  congr 1
  apply tokGo_fuel
  · have l1 := lenDW notAmp r2
    have l2 : (r.dropWhile notSep).length ≤ r.length := lenDW notSep r
    rw [hd] at l2
    simp only [List.length_cons] at l2
    omega
  · exact Nat.le_refl _

theorem tokenize_noval {c : Nat} {r : JStr} (hc : notSep c = true)
    (hd : (r.dropWhile notSep).head? ≠ some 61) :
    tokenize (c :: r) =
      (c :: r.takeWhile notSep, none) :: tokenize (r.dropWhile notSep) := by
  show tokGo (r.length + 1) (c :: r) = _
  simp only [tokGo, hc, if_true, hd, if_false]
  congr 1
  apply tokGo_fuel
  · exact lenDW notSep r
  · exact Nat.le_refl _

theorem tokGo_good : ∀ (f : Nat) (s : JStr), ∀ t ∈ tokGo f s, goodTok t := by
  intro f
  induction f with
  | zero => intro s t ht; cases s <;> simp [tokGo] at ht
  | succ f ih =>
    intro s t ht
    cases s with
    | nil => simp [tokGo_nil] at ht
    | cons c r =>
      rw [tokGo] at ht
      by_cases hc : notSep c = true
      · rw [if_pos hc] at ht
        by_cases hh : (r.dropWhile notSep).head? = some 61
        · rw [if_pos hh] at ht
          rcases List.mem_cons.1 ht with rfl | hmem
          · refine ⟨by simp, ?_, ?_⟩
            · intro x hx
              rcases List.mem_cons.1 hx with rfl | hx'
              · exact hc
              · exact List.mem_takeWhile_imp hx'
            · intro v hv x hx
              cases hv
              exact List.mem_takeWhile_imp hx
          · exact ih _ t hmem
        · rw [if_neg hh] at ht
          rcases List.mem_cons.1 ht with rfl | hmem
          · refine ⟨by simp, ?_, ?_⟩
            · intro x hx
              rcases List.mem_cons.1 hx with rfl | hx'
              · exact hc
              · exact List.mem_takeWhile_imp hx'
            · intro v hv; cases hv
          · exact ih _ t hmem
      · rw [if_neg hc] at ht
        exact ih _ t ht

theorem tokenize_good (s : JStr) : ∀ t ∈ tokenize s, goodTok t :=
  tokGo_good s.length s

theorem foldlM_addTok_alist :
    ∀ (toks : List (JStr × Option JStr)) (q0 q : QueryString),
      toks.foldlM addTok q0 = some q →
      q.alist.map (fun p => (p.key_enc, p.val_enc)) =
        q0.alist.map (fun p => (p.key_enc, p.val_enc)) ++ toks := by
  intro toks
  induction toks with
  | nil =>
    intro q0 q h
    simp only [List.foldlM_nil] at h
    cases h
    simp
  | cons t ts ih =>
    intro q0 q h
    rw [List.foldlM_cons] at h
    cases ha : addTok q0 t with
    | none => rw [ha] at h; cases h
    | some q1 =>
      rw [ha] at h
      simp only [Option.bind_eq_bind, Option.some_bind] at h
      have hrec := ih q1 q h
      unfold addTok at ha
      cases hk : keyDec t.1 with
      | none => rw [hk] at ha; cases ha
      | some kd =>
        rw [hk] at ha
        dsimp only at ha
        split at ha
        · cases ha
        · cases ha
          simp only [List.map_append, List.map_cons, List.map_nil] at hrec
          rw [hrec]
          simp

theorem tokenize_seg (t : JStr × Option JStr) (ht : goodTok t) (tail : JStr)
    (htail : tail = [] ∨ tail.head? = some 38) :
    tokenize (segTok t ++ tail) = t :: tokenize tail := by
  obtain ⟨hne, hkey, hval⟩ := ht
  rcases hk : t.1 with _ | ⟨c, key'⟩
  · exact absurd hk hne
  have hc : notSep c = true := hkey c (by rw [hk]; simp)
  have hkey' : ∀ x ∈ key', notSep x = true := fun x hx => hkey x (by rw [hk]; simp [hx])
  have htail_dw : tail.dropWhile notSep = tail := by
    rcases htail with rfl | hh
    · rfl
    · cases tail with
      | nil => rfl
      | cons a as =>
        simp only [List.head?_cons, Option.some.injEq] at hh
        subst hh
        rw [List.dropWhile_cons_of_neg (by decide)]
  have htail_tw : tail.takeWhile notSep = [] := by
    rcases htail with rfl | hh
    · rfl
    · cases tail with
      | nil => rfl
      | cons a as =>
        simp only [List.head?_cons, Option.some.injEq] at hh
        subst hh
        rw [List.takeWhile_cons_of_neg (by decide)]
  have htail_dwA : tail.dropWhile notAmp = tail := by
    rcases htail with rfl | hh
    · rfl
    · cases tail with
      | nil => rfl
      | cons a as =>
        simp only [List.head?_cons, Option.some.injEq] at hh
        subst hh
        rw [List.dropWhile_cons_of_neg (by decide)]
  have htail_twA : tail.takeWhile notAmp = [] := by
    rcases htail with rfl | hh
    · rfl
    · cases tail with
      | nil => rfl
      | cons a as =>
        simp only [List.head?_cons, Option.some.injEq] at hh
        subst hh
        rw [List.takeWhile_cons_of_neg (by decide)]
  rcases hv : t.2 with _ | v
  · -- no value: segTok t ++ tail = c :: (key' ++ tail)
    have hseg : segTok t ++ tail = c :: (key' ++ tail) := by
      unfold segTok; rw [hk, hv]; simp
    rw [hseg]
    have hdw : (key' ++ tail).dropWhile notSep = tail := by
      rw [List.dropWhile_append_of_pos hkey', htail_dw]
    have htw : (key' ++ tail).takeWhile notSep = key' := by
      rw [List.takeWhile_append_of_pos hkey', htail_tw, List.append_nil]
    rw [tokenize_noval hc (by
        rw [hdw]
        rcases htail with rfl | hh
        · simp
        · rw [hh]; simp), hdw, htw, ← hk, ← hv]
  · -- value present: segTok t ++ tail = c :: (key' ++ 61 :: (v ++ tail))
    have hvv : ∀ x ∈ v, notAmp x = true := hval v hv
    have hseg : segTok t ++ tail = c :: (key' ++ 61 :: (v ++ tail)) := by
      unfold segTok; rw [hk, hv]; simp
    rw [hseg]
    have hdw : (key' ++ 61 :: (v ++ tail)).dropWhile notSep = 61 :: (v ++ tail) := by
      rw [List.dropWhile_append_of_pos hkey', List.dropWhile_cons_of_neg (by decide)]
    have htw : (key' ++ 61 :: (v ++ tail)).takeWhile notSep = key' := by
      rw [List.takeWhile_append_of_pos hkey', List.takeWhile_cons_of_neg (by decide),
        List.append_nil]
    rw [tokenize_val hc hdw, htw]
    have h1 : (v ++ tail).takeWhile notAmp = v := by
      rw [List.takeWhile_append_of_pos hvv, htail_twA, List.append_nil]
    have h2 : (v ++ tail).dropWhile notAmp = tail := by
      rw [List.dropWhile_append_of_pos hvv, htail_dwA]
    rw [h1, h2, ← hk, ← hv]

theorem tokenize_render : ∀ (toks : List (JStr × Option JStr)),
    (∀ t ∈ toks, goodTok t) → tokenize (joinAmp (toks.map segTok)) = toks := by
  intro toks
  induction toks with
  | nil => intro _; rfl
  | cons t ts ih =>
    intro hg
    cases ts with
    | nil =>
      have h := tokenize_seg t (hg t (by simp)) [] (Or.inl rfl)
      simpa [joinAmp] using h
    | cons t2 ts2 =>
      have hJ : joinAmp ((t :: t2 :: ts2).map segTok) =
          segTok t ++ 38 :: joinAmp ((t2 :: ts2).map segTok) := by
        simp [joinAmp]
      have h := tokenize_seg t (hg t (by simp))
        (38 :: joinAmp ((t2 :: ts2).map segTok)) (Or.inr (by simp))
      rw [hJ, h, tokenize_sep _ (by decide), ih (fun x hx => hg x (by simp [hx]))]

theorem pairText_segTok (p : QPair) : pairText p = segTok (p.key_enc, p.val_enc) := rfl

theorem parse_toString_eq {t : JStr} {q : QueryString}
    (h : QueryString.parse t = some q) :
    QueryString.parse (QueryString.toString q) = some q := by
  unfold QueryString.parse at h
  have halist := foldlM_addTok_alist _ ⟨[], []⟩ q h
  simp only [List.map_nil, List.nil_append] at halist
  have hgood : ∀ tk ∈ tokenize (if t.getD 0 999 == 63 then t.drop 1 else t), goodTok tk :=
    tokenize_good _
  cases hq : q.alist with
  | nil =>
    have htoks0 : tokenize (if t.getD 0 999 == 63 then t.drop 1 else t) = [] := by
      rw [hq] at halist; simpa using halist.symm
    rw [htoks0] at h
    simp only [List.foldlM_nil] at h
    cases h
    rfl
  | cons p ps =>
    have hne : q.alist ≠ [] := by rw [hq]; simp
    have hts : QueryString.toString q = 63 :: joinAmp (q.alist.map pairText) := by
      rw [toString_eq_spec]; unfold toStringSpec; rw [if_neg hne]
    have hmap : q.alist.map pairText =
        (tokenize (if t.getD 0 999 == 63 then t.drop 1 else t)).map segTok := by
      rw [← halist, List.map_map]
      rfl
    unfold QueryString.parse
    rw [hts]
    have hstrip : ((63 :: joinAmp (q.alist.map pairText)).getD 0 999 == 63) = true := by
      simp
    rw [if_pos hstrip, List.drop_succ_cons, List.drop_zero, hmap,
      tokenize_render _ hgood]
    exact h

/-- C7: round-trip idempotence: for every text t that parses to an object q,
re-parsing the serialization and serializing again reproduce the same text,
since key tokens never contain = or ampersands and value tokens never
contain ampersands, so the stored encoded forms re-tokenize exactly. -/
theorem C7_roundtrip_idempotent (t : JStr) (q : QueryString)
    (h : QueryString.parse t = some q) :
    (QueryString.parse (QueryString.toString q)).map QueryString.toString =
      some (QueryString.toString q) := by
  rw [parse_toString_eq h]
  rfl

/-- Witness for C7 at the text "?a=b". -/
theorem C7_roundtrip_idempotent_witness :
    (QueryString.parse (QueryString.toString
        ⟨[([97], [some [98]])], [⟨[97], [97], some [98], some [98]⟩]⟩)).map
        QueryString.toString =
      some (QueryString.toString
        ⟨[([97], [some [98]])], [⟨[97], [97], some [98], some [98]⟩]⟩) :=
  C7_roundtrip_idempotent (str "?a=b") _ (by decide)

theorem storePres_refl (σ : Store) : StorePres σ σ :=
  ⟨Nat.le_refl _, Nat.le_refl _, fun _ _ => rfl, fun _ _ => rfl⟩

theorem storePres_trans {σ1 σ2 σ3 : Store} (h12 : StorePres σ1 σ2)
    (h23 : StorePres σ2 σ3) : StorePres σ1 σ3 := by
  obtain ⟨a12, b12, v12, p12⟩ := h12
  obtain ⟨a23, b23, v23, p23⟩ := h23
  exact ⟨Nat.le_trans a12 a23, Nat.le_trans b12 b23,
    fun i hi => (v23 i (Nat.lt_of_lt_of_le hi a12)).trans (v12 i hi),
    fun j hj => (p23 j (Nat.lt_of_lt_of_le hj b12)).trans (p12 j hj)⟩

theorem storePres_allocV (σ : Store) (a : List (Option JStr)) :
    StorePres σ (allocV σ a).1 := by
  refine ⟨by simp [allocV], by simp [allocV], ?_, fun j _ => rfl⟩
  intro i hi
  unfold readV allocV
  simp only [List.getD_eq_getElem?_getD, List.getElem?_append_left hi]

theorem storePres_allocP (σ : Store) (a : List QPair) :
    StorePres σ (allocP σ a).1 := by
  refine ⟨by simp [allocP], by simp [allocP], fun i _ => rfl, ?_⟩
  intro j hj
  unfold readP allocP
  simp only [List.getD_eq_getElem?_getD, List.getElem?_append_left hj]

theorem storePres_pushV_fresh (σ : Store) (a : List (Option JStr)) (v : Option JStr) :
    StorePres σ (pushV (allocV σ a).1 (allocV σ a).2 v) := by
  refine ⟨by simp [pushV, allocV], by simp [pushV, allocV], ?_, fun j _ => rfl⟩
  intro i hi
  have hne : σ.varrs.length ≠ i := by omega
  unfold readV pushV allocV
  simp only [List.getD_eq_getElem?_getD, List.getElem?_set_ne hne,
    List.getElem?_append_left hi]

theorem storePres_pushP_fresh (σ : Store) (a : List QPair) (p : QPair) :
    StorePres σ (pushP (allocP σ a).1 (allocP σ a).2 p) := by
  refine ⟨by simp [pushP, allocP], by simp [pushP, allocP], fun i _ => rfl, ?_⟩
  intro j hj
  have hne : σ.parrs.length ≠ j := by omega
  unfold readP pushP allocP
  simp only [List.getD_eq_getElem?_getD, List.getElem?_set_ne hne,
    List.getElem?_append_left hj]

theorem plusDictH_pres (k : JStr) (v : Option JStr) :
    ∀ (es : List (JStr × Nat)) (σ : Store), StorePres σ (plusDictH k v σ es).1 := by
  intro es
  induction es with
  | nil => intro σ; exact storePres_refl σ
  | cons e es ih =>
    intro σ
    obtain ⟨ok, r⟩ := e
    unfold plusDictH
    by_cases hk : (ok == k) = true
    · rw [if_pos hk]
      exact storePres_trans (storePres_pushV_fresh σ (readV σ r) v) (ih _)
    · rw [if_neg hk]
      exact ih σ

theorem minus2DictH_pres (v : Option JStr) :
    ∀ (es : List (JStr × Nat)) (σ : Store), StorePres σ (minus2DictH v σ es).1 := by
  intro es
  induction es with
  | nil => intro σ; exact storePres_refl σ
  | cons e es ih =>
    intro σ
    obtain ⟨ok, r⟩ := e
    unfold minus2DictH
    by_cases he : ((readV σ r).filter (fun el => !(el == v))).isEmpty = true
    · rw [if_pos he]
      exact ih σ
    · rw [if_neg he]
      exact storePres_trans (storePres_allocV σ _) (ih _)

theorem minusH_pres (σ : Store) (q : HQS) (k : JStr) :
    StorePres σ (minusH σ q k).1 :=
  storePres_allocP σ _

theorem minus2H_pres (σ : Store) (q : HQS) (k : JStr) (v : Option JStr) :
    StorePres σ (minus2H σ q k v).1 :=
  storePres_trans (minus2DictH_pres v q.dict σ) (storePres_allocP _ _)

theorem plusH_pres (σ : Store) (q : HQS) (k : JStr) (v : Option JStr)
    (σ' : Store) (q' : HQS) (h : plusH σ q k v = some (σ', q')) :
    StorePres σ σ' := by
  unfold plusH at h
  cases hek : QueryString.encode k with
  | none => rw [hek] at h; cases h
  | some ke =>
    cases hev : QueryString.encode (jsToStr v) with
    | none => rw [hek, hev] at h; cases h
    | some ve =>
      rw [hek, hev] at h
      simp only [Option.some.injEq, Prod.mk.injEq] at h
      obtain ⟨hσ, _⟩ := h
      subst hσ
      by_cases hf : (q.dict.find? (fun e => e.1 == k)).isSome = true
      · simp only [hf, if_true]
        exact storePres_trans (plusDictH_pres k v q.dict σ) (storePres_pushP_fresh _ _ _)
      · simp only [hf, if_false]
        exact storePres_trans (storePres_allocV σ [v]) (storePres_pushP_fresh _ _ _)

theorem readQS_pres {σ σ' : Store} (h : StorePres σ σ') {q : HQS}
    (hok : okQS σ q) : readQS σ' q = readQS σ q := by
  unfold readQS
  refine Prod.ext ?_ (h.2.2.2 q.alist hok.2)
  simp only [List.map_inj_left]
  intro e he
  rw [h.2.2.1 e.2 (hok.1 e he)]

theorem obsEq_of_readQS {σ σ' : Store} {q : HQS}
    (h : readQS σ' q = readQS σ q) : obsEq σ σ' q := by
  have hP : readP σ' q.alist = readP σ q.alist := congrArg Prod.snd h
  have hD := congrArg Prod.fst h
  simp only [readQS, List.map_inj_left] at hD
  have hDe : ∀ e ∈ q.dict, readV σ' e.2 = readV σ e.2 := by
    intro e he
    have := hD e he
    simpa using congrArg Prod.snd this
  refine ⟨h, ?_, ?_⟩
  · intro k2
    unfold valueH valuesH
    cases hf : q.dict.find? (fun e => e.1 == k2) with
    | none => exact ⟨rfl, rfl⟩
    | some e =>
      dsimp only
      rw [hDe e (List.mem_of_find?_eq_some hf)]
      exact ⟨rfl, rfl⟩
  · unfold toStringH
    rw [hP]

/-- C9: over the store model of the mutable arrays, no mutation operation
touches the receiver: minus(k), minus(k, v) and (when it does not throw)
plus(k, v) leave every array reachable from the original object intact, so
the deep read of the receiver, and its value, values and toString
observations, are unchanged (keys reads only the object itself, which is
never reassigned). -/
theorem C9_mutators_preserve_receiver (σ : Store) (q : HQS) (k : JStr)
    (v : Option JStr) (hok : okQS σ q) :
    (readQS (minusH σ q k).1 q = readQS σ q ∧ obsEq σ (minusH σ q k).1 q) ∧
    (readQS (minus2H σ q k v).1 q = readQS σ q ∧ obsEq σ (minus2H σ q k v).1 q) ∧
    ∀ σ' q', plusH σ q k v = some (σ', q') →
      readQS σ' q = readQS σ q ∧ obsEq σ σ' q := by
  have h1 := readQS_pres (minusH_pres σ q k) hok
  have h2 := readQS_pres (minus2H_pres σ q k v) hok
  refine ⟨⟨h1, obsEq_of_readQS h1⟩, ⟨h2, obsEq_of_readQS h2⟩, ?_⟩
  intro σ' q' hp
  have h3 := readQS_pres (plusH_pres σ q k v σ' q' hp) hok
  exact ⟨h3, obsEq_of_readQS h3⟩

/-- Witness for C9: a store holding one object with one pair, the pair
of the spec example reading x for key a. -/
theorem C9_mutators_preserve_receiver_witness :
    (readQS (minusH ⟨[[some [120]]], [[⟨[97], [97], some [120], some [120]⟩]]⟩
        ⟨[([97], 0)], 0⟩ [97]).1 ⟨[([97], 0)], 0⟩ =
      readQS ⟨[[some [120]]], [[⟨[97], [97], some [120], some [120]⟩]]⟩
        ⟨[([97], 0)], 0⟩ ∧
      obsEq ⟨[[some [120]]], [[⟨[97], [97], some [120], some [120]⟩]]⟩
        (minusH ⟨[[some [120]]], [[⟨[97], [97], some [120], some [120]⟩]]⟩
          ⟨[([97], 0)], 0⟩ [97]).1 ⟨[([97], 0)], 0⟩) ∧
    (readQS (minus2H ⟨[[some [120]]], [[⟨[97], [97], some [120], some [120]⟩]]⟩
        ⟨[([97], 0)], 0⟩ [97] (some [120])).1 ⟨[([97], 0)], 0⟩ =
      readQS ⟨[[some [120]]], [[⟨[97], [97], some [120], some [120]⟩]]⟩
        ⟨[([97], 0)], 0⟩ ∧
      obsEq ⟨[[some [120]]], [[⟨[97], [97], some [120], some [120]⟩]]⟩
        (minus2H ⟨[[some [120]]], [[⟨[97], [97], some [120], some [120]⟩]]⟩
          ⟨[([97], 0)], 0⟩ [97] (some [120])).1 ⟨[([97], 0)], 0⟩) ∧
    ∀ σ' q', plusH ⟨[[some [120]]], [[⟨[97], [97], some [120], some [120]⟩]]⟩
        ⟨[([97], 0)], 0⟩ [97] (some [120]) = some (σ', q') →
      readQS σ' ⟨[([97], 0)], 0⟩ =
        readQS ⟨[[some [120]]], [[⟨[97], [97], some [120], some [120]⟩]]⟩
          ⟨[([97], 0)], 0⟩ ∧
      obsEq ⟨[[some [120]]], [[⟨[97], [97], some [120], some [120]⟩]]⟩ σ'
        ⟨[([97], 0)], 0⟩ :=
  C9_mutators_preserve_receiver _ _ [97] (some [120])
    (by constructor
        · intro e he
          simp only [List.mem_singleton] at he
          subst he
          decide
        · decide)

theorem getD_overflow (i : Nat) {s : JStr} (h : s.length ≤ i) :
    s.getD i 999 = 999 := by
  rw [List.getD_eq_getElem?_getD, List.getElem?_eq_none h]
  rfl

theorem shape3_length {s : JStr} (h : shape3 s = true) : 9 ≤ s.length := by
  by_contra hlt
  push_neg at hlt
  unfold shape3 at h
  rw [getD_overflow 8 (by omega)] at h
  simp [hexU] at h

theorem shape2_length {s : JStr} (h : shape2 s = true) : 6 ≤ s.length := by
  by_contra hlt
  push_neg at hlt
  unfold shape2 at h
  rw [getD_overflow 5 (by omega)] at h
  simp [hexU] at h

theorem shape1_length {s : JStr} (h : shape1 s = true) : 3 ≤ s.length := by
  by_contra hlt
  push_neg at hlt
  unfold shape1 at h
  rw [getD_overflow 2 (by omega)] at h
  simp [hexU] at h

theorem d3go_fuel : ∀ (f1 f2 : Nat) (s : JStr), s.length ≤ f1 → s.length ≤ f2 →
    d3go f1 s = d3go f2 s := by
  intro f1
  induction f1 with
  | zero =>
    intro f2 s h1 _
    have : s = [] := List.length_eq_zero.1 (Nat.le_zero.1 h1)
    subst this
    cases f2 <;> rfl
  | succ f ih =>
    intro f2 s h1 h2
    cases s with
    | nil => cases f2 <;> rfl
    | cons c r =>
      cases f2 with
      | zero => simp at h2
      | succ g =>
        have hr : r.length ≤ f := by simpa using h1
        have hrg : r.length ≤ g := by simpa using h2
        simp only [d3go]
        by_cases hs : shape3 (c :: r) = true
        · simp only [hs, if_true]
          have h9 := shape3_length hs
          rw [ih g _ (by simp only [List.length_drop]; simp at h9 ⊢; omega)
            (by simp only [List.length_drop]; simp at h9 ⊢; omega)]
        · have hs' : shape3 (c :: r) = false := by simpa using hs
          simp only [hs', Bool.false_eq_true, if_false]
          rw [ih g r hr hrg]

theorem d2go_fuel : ∀ (f1 f2 : Nat) (s : JStr), s.length ≤ f1 → s.length ≤ f2 →
    d2go f1 s = d2go f2 s := by
  intro f1
  induction f1 with
  | zero =>
    intro f2 s h1 _
    have : s = [] := List.length_eq_zero.1 (Nat.le_zero.1 h1)
    subst this
    cases f2 <;> rfl
  | succ f ih =>
    intro f2 s h1 h2
    cases s with
    | nil => cases f2 <;> rfl
    | cons c r =>
      cases f2 with
      | zero => simp at h2
      | succ g =>
        have hr : r.length ≤ f := by simpa using h1
        have hrg : r.length ≤ g := by simpa using h2
        simp only [d2go]
        by_cases hs : shape2 (c :: r) = true
        · simp only [hs, if_true]
          have h6 := shape2_length hs
          rw [ih g _ (by simp only [List.length_drop]; simp at h6 ⊢; omega)
            (by simp only [List.length_drop]; simp at h6 ⊢; omega)]
        · have hs' : shape2 (c :: r) = false := by simpa using hs
          simp only [hs', Bool.false_eq_true, if_false]
          rw [ih g r hr hrg]

theorem d1go_fuel : ∀ (f1 f2 : Nat) (s : JStr), s.length ≤ f1 → s.length ≤ f2 →
    d1go f1 s = d1go f2 s := by
  intro f1
  induction f1 with
  | zero =>
    intro f2 s h1 _
    have : s = [] := List.length_eq_zero.1 (Nat.le_zero.1 h1)
    subst this
    cases f2 <;> rfl
  | succ f ih =>
    intro f2 s h1 h2
    cases s with
    | nil => cases f2 <;> rfl
    | cons c r =>
      cases f2 with
      | zero => simp at h2
      | succ g =>
        have hr : r.length ≤ f := by simpa using h1
        have hrg : r.length ≤ g := by simpa using h2
        simp only [d1go]
        by_cases hs : shape1 (c :: r) = true
        · simp only [hs, if_true]
          have h3 := shape1_length hs
          rw [ih g _ (by simp only [List.length_drop]; simp at h3 ⊢; omega)
            (by simp only [List.length_drop]; simp at h3 ⊢; omega)]
        · have hs' : shape1 (c :: r) = false := by simpa using hs
          simp only [hs', Bool.false_eq_true, if_false]
          rw [ih g r hr hrg]

theorem decode3s_pos {s : JStr} (h : shape3 s = true) :
    decode3s s = rep3 s ++ decode3s (s.drop 9) := by
  cases s with
  | nil => exact absurd h (by decide)
  | cons c r =>
    have h9 := shape3_length h
    show d3go (r.length + 1) (c :: r) = _
    simp only [d3go, h, if_true]
    congr 1
    apply d3go_fuel
    · simp only [List.length_drop, List.length_cons]
      simp only [List.length_cons] at h9
      omega
    · exact Nat.le_refl _

theorem decode3s_neg {c : Nat} {r : JStr} (h : shape3 (c :: r) = false) :
    decode3s (c :: r) = c :: decode3s r := by
  show d3go (r.length + 1) (c :: r) = _
  simp only [d3go, h, Bool.false_eq_true, if_false]
  rfl

theorem decode2s_pos {s : JStr} (h : shape2 s = true) :
    decode2s s = rep2 s ++ decode2s (s.drop 6) := by
  cases s with
  | nil => exact absurd h (by decide)
  | cons c r =>
    have h6 := shape2_length h
    show d2go (r.length + 1) (c :: r) = _
    simp only [d2go, h, if_true]
    congr 1
    apply d2go_fuel
    · simp only [List.length_drop, List.length_cons]
      simp only [List.length_cons] at h6
      omega
    · exact Nat.le_refl _

theorem decode2s_neg {c : Nat} {r : JStr} (h : shape2 (c :: r) = false) :
    decode2s (c :: r) = c :: decode2s r := by
  show d2go (r.length + 1) (c :: r) = _
  simp only [d2go, h, Bool.false_eq_true, if_false]
  rfl

theorem decode1s_pos {s : JStr} (h : shape1 s = true) :
    decode1s s = rep1 s ++ decode1s (s.drop 3) := by
  cases s with
  | nil => exact absurd h (by decide)
  | cons c r =>
    have h3 := shape1_length h
    show d1go (r.length + 1) (c :: r) = _
    simp only [d1go, h, if_true]
    congr 1
    apply d1go_fuel
    · simp only [List.length_drop, List.length_cons]
      simp only [List.length_cons] at h3
      omega
    · exact Nat.le_refl _

theorem decode1s_neg {c : Nat} {r : JStr} (h : shape1 (c :: r) = false) :
    decode1s (c :: r) = c :: decode1s r := by
  show d1go (r.length + 1) (c :: r) = _
  simp only [d1go, h, Bool.false_eq_true, if_false]
  rfl

theorem hexV_hexDigU {n : Nat} (h : n < 16) : hexV (hexDigU n) = n := by
  unfold hexV hexDigU
  split_ifs <;> omega

theorem hexU_vals {c : Nat} (h : hexU c = true) :
    (48 ≤ c ∧ c ≤ 57) ∨ (65 ≤ c ∧ c ≤ 70) := by
  unfold hexU at h
  simp only [Bool.or_eq_true, Bool.and_eq_true, decide_eq_true_eq] at h
  exact h

theorem hexDigU_eq50 {n : Nat} (h : n < 16) (he : hexDigU n = 50) : n = 2 := by
  unfold hexDigU at he
  split_ifs at he <;> omega

theorem hexDigU_eq48 {n : Nat} (h : n < 16) (he : hexDigU n = 48) : n = 0 := by
  unfold hexDigU at he
  split_ifs at he <;> omega

theorem pGo_fuel : ∀ (f1 f2 : Nat) (s : JStr), s.length ≤ f1 → s.length ≤ f2 →
    pGo f1 s = pGo f2 s := by
  intro f1
  induction f1 with
  | zero =>
    intro f2 s h1 _
    have : s = [] := List.length_eq_zero.1 (Nat.le_zero.1 h1)
    subst this
    cases f2 <;> rfl
  | succ f ih =>
    intro f2 s h1 h2
    cases s with
    | nil => cases f2 <;> rfl
    | cons c r =>
      cases f2 with
      | zero => simp at h2
      | succ g =>
        have hr : r.length ≤ f := by simpa using h1
        have hrg : r.length ≤ g := by simpa using h2
        simp only [pGo]
        by_cases hc : (c == 37 && r.getD 0 999 == 50 && r.getD 1 999 == 48) = true
        · simp only [hc, if_true]
          rw [ih g _ (by simp only [List.length_drop]; omega)
            (by simp only [List.length_drop]; omega)]
        · have hc' : (c == 37 && r.getD 0 999 == 50 && r.getD 1 999 == 48) = false := by
            simpa using hc
          simp only [hc', Bool.false_eq_true, if_false]
          rw [ih g r hr hrg]

theorem plusify_step {c : Nat} {r : JStr}
    (h : (c == 37 && r.getD 0 999 == 50 && r.getD 1 999 == 48) = false) :
    plusify (c :: r) = c :: plusify r := by
  show pGo (r.length + 1) (c :: r) = _
  simp only [pGo, h, Bool.false_eq_true, if_false]
  rfl

theorem plusify_esc20 (r : JStr) : plusify (37 :: 50 :: 48 :: r) = 43 :: plusify r := by
  show pGo (r.length + 1 + 1 + 1) (37 :: 50 :: 48 :: r) = _
  simp only [pGo, List.getD_cons_zero, List.getD_cons_succ, beq_self_eq_true,
    Bool.and_self, if_pos, List.drop_succ_cons, List.drop_zero]
  exact congrArg (43 :: ·) (pGo_fuel (r.length + 2) r.length r (by omega) (Nat.le_refl _))

theorem plusify_esc_step {h1 h2 : Nat} (hh1 : hexU h1 = true) (hh2 : hexU h2 = true)
    (hne : ¬(h1 = 50 ∧ h2 = 48)) (r : JStr) :
    plusify (37 :: h1 :: h2 :: r) = 37 :: h1 :: h2 :: plusify r := by
  have r1 := hexU_vals hh1
  have r2 := hexU_vals hh2
  have c1 : ((37 : Nat) == 37 && (h1 :: h2 :: r).getD 0 999 == 50 &&
      (h1 :: h2 :: r).getD 1 999 == 48) = false := by
    simp only [List.getD_cons_zero, List.getD_cons_succ, beq_self_eq_true, Bool.true_and]
    by_cases e1 : h1 = 50
    · have e2 : h2 ≠ 48 := fun e2 => hne ⟨e1, e2⟩
      have : (h2 == 48) = false := by simpa [beq_eq_false_iff_ne]
      simp [this]
    · have : (h1 == 50) = false := by simpa [beq_eq_false_iff_ne]
      simp [this]
  have c2 : ((h1 : Nat) == 37 && (h2 :: r).getD 0 999 == 50 &&
      (h2 :: r).getD 1 999 == 48) = false := by
    have : (h1 == 37) = false := by simp only [beq_eq_false_iff_ne, ne_eq]; omega
    simp [this]
  have c3 : ((h2 : Nat) == 37 && r.getD 0 999 == 50 && r.getD 1 999 == 48) = false := by
    have : (h2 == 37) = false := by simp only [beq_eq_false_iff_ne, ne_eq]; omega
    simp [this]
  rw [plusify_step c1, plusify_step c2, plusify_step c3]

theorem uriUnescaped_ne (c : Nat) (h : uriUnescaped c = true) :
    c ≠ 32 ∧ c ≠ 37 ∧ c ≠ 43 := by
  unfold uriUnescaped at h
  simp only [Bool.or_eq_true, Bool.and_eq_true, decide_eq_true_eq, beq_iff_eq] at h
  omega

theorem escCP_one {c : Nat} (h : c < 128) :
    escCP c = [37, hexDigU (c / 16), hexDigU (c % 16)] := by
  unfold escCP utf8Bytes
  rw [if_pos h]
  simp

theorem escCP_two {c : Nat} (h1 : 128 ≤ c) (h2 : c < 2048) :
    escCP c = [37, hexDigU ((192 + c / 64) / 16), hexDigU ((192 + c / 64) % 16),
               37, hexDigU ((128 + c % 64) / 16), hexDigU ((128 + c % 64) % 16)] := by
  unfold escCP utf8Bytes
  rw [if_neg (by omega), if_pos h2]
  simp

theorem escCP_three {c : Nat} (h1 : 2048 ≤ c) (h2 : c < 65536) :
    escCP c = [37, hexDigU ((224 + c / 4096) / 16), hexDigU ((224 + c / 4096) % 16),
               37, hexDigU ((128 + c / 64 % 64) / 16), hexDigU ((128 + c / 64 % 64) % 16),
               37, hexDigU ((128 + c % 64) / 16), hexDigU ((128 + c % 64) % 16)] := by
  unfold escCP utf8Bytes
  rw [if_neg (by omega), if_neg (by omega), if_pos h2]
  simp

theorem euriGo_bmp : ∀ (fuel : Nat) (s : JStr), s.length ≤ fuel →
    (∀ c ∈ s, c < 65536 ∧ (c < 55296 ∨ 57343 < c)) →
    euriGo fuel s = some ((s.map encChunk).flatten) := by
  intro fuel
  induction fuel with
  | zero =>
    intro s h1 _
    have : s = [] := List.length_eq_zero.1 (Nat.le_zero.1 h1)
    subst this
    rfl
  | succ fuel ih =>
    intro s h1 hs
    cases s with
    | nil => rfl
    | cons c r =>
      obtain ⟨hc1, hc2⟩ := hs c (by simp)
      have hrec := ih r (by simpa using h1) (fun x hx => hs x (by simp [hx]))
      unfold euriGo
      by_cases hu : uriUnescaped c = true
      · rw [if_pos hu, hrec]
        simp [encChunk, hu]
      · rw [if_neg hu,
          if_pos (by simp only [Bool.or_eq_true, decide_eq_true_eq]; exact hc2), hrec]
        simp [encChunk, hu]

theorem plusify_chunk (c : Nat) (hc : c < 65536) (r : JStr) :
    plusify (encChunk c ++ r) = plusChunk c ++ plusify r := by
  by_cases hu : uriUnescaped c = true
  · obtain ⟨h32, h37, _⟩ := uriUnescaped_ne c hu
    have hb32 : (c == 32) = false := by simpa [beq_eq_false_iff_ne]
    have hb37 : (c == 37) = false := by simpa [beq_eq_false_iff_ne]
    simp only [encChunk, plusChunk, hu, if_true, hb32, Bool.false_eq_true, if_false,
      List.cons_append, List.nil_append]
    rw [plusify_step (by simp [hb37])]
  · simp only [encChunk, plusChunk, hu, Bool.false_eq_true, if_false]
    by_cases h32 : c = 32
    · subst h32
      have he : escCP 32 = [37, 50, 48] := rfl
      rw [if_pos (by decide), he]
      simpa using plusify_esc20 r
    · have hb32 : (c == 32) = false := by simpa [beq_eq_false_iff_ne]
      rw [hb32]
      simp only [Bool.false_eq_true, if_false]
      by_cases hr1 : c < 128
      · rw [escCP_one hr1]
        simp only [List.cons_append, List.nil_append]
        rw [plusify_esc_step (hexU_hexDigU (by omega)) (hexU_hexDigU (by omega))
          (by rintro ⟨e1, e2⟩
              have v1 := hexDigU_eq50 (by omega) e1
              have v2 := hexDigU_eq48 (by omega) e2
              omega) r]
      · by_cases hr2 : c < 2048
        · rw [escCP_two (by omega) hr2]
          simp only [List.cons_append, List.nil_append]
          rw [plusify_esc_step (hexU_hexDigU (by omega)) (hexU_hexDigU (by omega))
            (by rintro ⟨e1, _⟩
                have v1 := hexDigU_eq50 (by omega) e1
                omega) _]
          rw [plusify_esc_step (hexU_hexDigU (by omega)) (hexU_hexDigU (by omega))
            (by rintro ⟨e1, _⟩
                have v1 := hexDigU_eq50 (by omega) e1
                omega) _]
        · rw [escCP_three (by omega) hc]
          simp only [List.cons_append, List.nil_append]
          rw [plusify_esc_step (hexU_hexDigU (by omega)) (hexU_hexDigU (by omega))
            (by rintro ⟨e1, _⟩
                have v1 := hexDigU_eq50 (by omega) e1
                omega) _]
          rw [plusify_esc_step (hexU_hexDigU (by omega)) (hexU_hexDigU (by omega))
            (by rintro ⟨e1, _⟩
                have v1 := hexDigU_eq50 (by omega) e1
                omega) _]
          rw [plusify_esc_step (hexU_hexDigU (by omega)) (hexU_hexDigU (by omega))
            (by rintro ⟨e1, _⟩
                have v1 := hexDigU_eq50 (by omega) e1
                omega) _]

theorem plusify_chunks : ∀ (s : JStr), (∀ c ∈ s, c < 65536) →
    plusify ((s.map encChunk).flatten) = (s.map plusChunk).flatten := by
  intro s
  induction s with
  | nil => intro _; rfl
  | cons c r ih =>
    intro hs
    simp only [List.map_cons, List.flatten_cons]
    rw [plusify_chunk c (hs c (by simp)), ih (fun x hx => hs x (by simp [hx]))]

theorem uriUnescaped_lt {c : Nat} (h : uriUnescaped c = true) : c < 128 := by
  unfold uriUnescaped at h
  simp only [Bool.or_eq_true, Bool.and_eq_true, decide_eq_true_eq, beq_iff_eq] at h
  omega

theorem escCP_chars {v : Nat} (hv : v ≤ 1114111) :
    ∀ x ∈ escCP v, x = 37 ∨ hexU x = true := by
  intro x hx
  unfold escCP at hx
  simp only [List.mem_flatten, List.mem_map] at hx
  obtain ⟨l, ⟨b, hb, rfl⟩, hxl⟩ := hx
  have hblt := utf8Bytes_lt hv b hb
  simp only [List.mem_cons, List.not_mem_nil, or_false] at hxl
  rcases hxl with rfl | rfl | rfl
  · exact Or.inl rfl
  · exact Or.inr (hexU_hexDigU (by omega))
  · exact Or.inr (hexU_hexDigU (by omega))

theorem plusSp_chunk (c : Nat) (hc : c < 65536) :
    plusSp (plusChunk c) = spChunk c := by
  by_cases h32 : c = 32
  · subst h32; rfl
  · have hb32 : (c == 32) = false := by simpa [beq_eq_false_iff_ne]
    by_cases hu : uriUnescaped c = true
    · obtain ⟨_, _, h43⟩ := uriUnescaped_ne c hu
      have hb43 : (c == 43) = false := by simpa [beq_eq_false_iff_ne]
      simp only [plusChunk, spChunk, encChunk, hu, hb32, plusSp, hb43, if_true, if_false,
        Bool.false_eq_true, Bool.true_or, List.map_cons, List.map_nil]
    · simp only [plusChunk, spChunk, encChunk, hu, hb32, Bool.false_eq_true, if_false,
        Bool.false_or]
      unfold plusSp
      have hmap : ∀ x ∈ escCP c, (if x == 43 then 32 else x) = x := by
        intro x hx
        rcases escCP_chars (by omega) x hx with rfl | hhex
        · rfl
        · have := hexU_vals hhex
          rw [if_neg (by simp only [beq_iff_eq]; omega)]
      calc (escCP c).map (fun x => if x == 43 then 32 else x)
          = (escCP c).map id := List.map_congr_left hmap
        _ = escCP c := List.map_id _

theorem plusSp_chunks : ∀ (s : JStr), (∀ c ∈ s, c < 65536) →
    plusSp ((s.map plusChunk).flatten) = (s.map spChunk).flatten := by
  intro s
  induction s with
  | nil => intro _; rfl
  | cons c r ih =>
    intro hs
    simp only [List.map_cons, List.flatten_cons]
    unfold plusSp
    rw [List.map_append]
    show plusSp (plusChunk c) ++ plusSp ((r.map plusChunk).flatten) = _
    rw [plusSp_chunk c (hs c (by simp)), ih (fun x hx => hs x (by simp [hx]))]

theorem contD_hexDigU {n : Nat} (h8 : 8 ≤ n) (h11 : n ≤ 11) :
    contD (hexDigU n) = true := by
  unfold contD hexDigU
  split_ifs <;> simp only [Bool.or_eq_true, beq_iff_eq] <;> omega

theorem lead2_hexDigU {n : Nat} (h12 : 12 ≤ n) (h13 : n ≤ 13) :
    lead2 (hexDigU n) = true := by
  unfold lead2 hexDigU
  split_ifs <;> simp only [Bool.or_eq_true, beq_iff_eq] <;> omega

theorem asc1_hexDigU {n : Nat} (h : n ≤ 7) : asc1 (hexDigU n) = true := by
  unfold asc1 hexDigU
  split_ifs <;> simp only [Bool.and_eq_true, decide_eq_true_eq] <;> omega

theorem lead3_hexDigU_false {n : Nat} (h : n < 14) : lead3 (hexDigU n) = false := by
  unfold lead3 hexDigU
  split_ifs <;> simp only [Bool.or_eq_false_iff, beq_eq_false_iff_ne, ne_eq] <;> omega

theorem lead2_hexDigU_false {n : Nat} (h : n < 12) : lead2 (hexDigU n) = false := by
  unfold lead2 hexDigU
  split_ifs <;> simp only [Bool.or_eq_false_iff, beq_eq_false_iff_ne, ne_eq] <;> omega

theorem hexDigU_ne37 {n : Nat} (h : n < 16) : (hexDigU n == 37) = false := by
  unfold hexDigU
  split_ifs <;> simp only [beq_eq_false_iff_ne, ne_eq] <;> omega

theorem shape3_false_head {c : Nat} (h : (c == 37) = false) (r : JStr) :
    shape3 (c :: r) = false := by
  unfold shape3
  simp [List.getD_cons_zero, h]

theorem shape3_false_lead {d : Nat} (h : lead3 d = false) (r : JStr) :
    shape3 (37 :: d :: r) = false := by
  unfold shape3
  simp [List.getD_cons_zero, List.getD_cons_succ, h]

theorem shape2_false_head {c : Nat} (h : (c == 37) = false) (r : JStr) :
    shape2 (c :: r) = false := by
  unfold shape2
  simp [List.getD_cons_zero, h]

theorem shape2_false_lead {d : Nat} (h : lead2 d = false) (r : JStr) :
    shape2 (37 :: d :: r) = false := by
  unfold shape2
  simp [List.getD_cons_zero, List.getD_cons_succ, h]

theorem shape1_false_head {c : Nat} (h : (c == 37) = false) (r : JStr) :
    shape1 (c :: r) = false := by
  unfold shape1
  simp [List.getD_cons_zero, h]

theorem shape1_false_lead {d : Nat} (h : asc1 d = false) (r : JStr) :
    shape1 (37 :: d :: r) = false := by
  unfold shape1
  simp [List.getD_cons_zero, List.getD_cons_succ, h]

theorem d3_lit {x : Nat} (hx : (x == 37) = false) (r : JStr) :
    decode3s (x :: r) = x :: decode3s r :=
  decode3s_neg (shape3_false_head hx r)

theorem d3_esc1 {d1 d2 : Nat} (h1 : lead3 d1 = false) (hd1 : (d1 == 37) = false)
    (hd2 : (d2 == 37) = false) (r : JStr) :
    decode3s (37 :: d1 :: d2 :: r) = 37 :: d1 :: d2 :: decode3s r := by
  rw [decode3s_neg (shape3_false_lead h1 _), d3_lit hd1, d3_lit hd2]

theorem rep3_eq (s : JStr) : rep3 s =
    (if (hexV (s.getD 1 999) * 16 + hexV (s.getD 2 999) - 224) == 0 &&
        (hexV (s.getD 4 999) * 16 + hexV (s.getD 5 999) - 128) < 32 then s.take 9
     else if (hexV (s.getD 1 999) * 16 + hexV (s.getD 2 999) - 224) * 4096 +
        (hexV (s.getD 4 999) * 16 + hexV (s.getD 5 999) - 128) * 64 +
        (hexV (s.getD 7 999) * 16 + hexV (s.getD 8 999) - 128) > 65535 then s.take 9
     else [(hexV (s.getD 1 999) * 16 + hexV (s.getD 2 999) - 224) * 4096 +
        (hexV (s.getD 4 999) * 16 + hexV (s.getD 5 999) - 128) * 64 +
        (hexV (s.getD 7 999) * 16 + hexV (s.getD 8 999) - 128)]) := rfl

set_option maxRecDepth 4000 in
set_option maxHeartbeats 2000000 in
theorem d3_esc3 {c : Nat} (h1 : 2048 ≤ c) (h2 : c < 65536) (r : JStr) :
    decode3s (escCP c ++ r) = c :: decode3s r := by
  rw [escCP_three h1 h2]
  simp only [List.cons_append, List.nil_append]
  have e1 : (224 + c / 4096) / 16 = 14 := by omega
  have l1 : lead3 (hexDigU ((224 + c / 4096) / 16)) = true := by rw [e1]; rfl
  have x1 : hexU (hexDigU ((224 + c / 4096) % 16)) = true := hexU_hexDigU (by omega)
  have cd1 : contD (hexDigU ((128 + c / 64 % 64) / 16)) = true :=
    contD_hexDigU (by omega) (by omega)
  have x2 : hexU (hexDigU ((128 + c / 64 % 64) % 16)) = true := hexU_hexDigU (by omega)
  have cd2 : contD (hexDigU ((128 + c % 64) / 16)) = true :=
    contD_hexDigU (by omega) (by omega)
  have x3 : hexU (hexDigU ((128 + c % 64) % 16)) = true := hexU_hexDigU (by omega)
  have hsh : shape3 (37 :: hexDigU ((224 + c / 4096) / 16) ::
      hexDigU ((224 + c / 4096) % 16) :: 37 :: hexDigU ((128 + c / 64 % 64) / 16) ::
      hexDigU ((128 + c / 64 % 64) % 16) :: 37 :: hexDigU ((128 + c % 64) / 16) ::
      hexDigU ((128 + c % 64) % 16) :: r) = true := by
    unfold shape3
    simp [List.getD_cons_zero, List.getD_cons_succ, l1, x1, cd1, x2, cd2, x3]
  rw [decode3s_pos hsh, rep3_eq]
  simp only [List.getD_cons_zero, List.getD_cons_succ]
  have v1 : hexV (hexDigU ((224 + c / 4096) / 16)) = (224 + c / 4096) / 16 :=
    hexV_hexDigU (by omega)
  have v2 : hexV (hexDigU ((224 + c / 4096) % 16)) = (224 + c / 4096) % 16 :=
    hexV_hexDigU (by omega)
  have v3 : hexV (hexDigU ((128 + c / 64 % 64) / 16)) = (128 + c / 64 % 64) / 16 :=
    hexV_hexDigU (by omega)
  have v4 : hexV (hexDigU ((128 + c / 64 % 64) % 16)) = (128 + c / 64 % 64) % 16 :=
    hexV_hexDigU (by omega)
  have v5 : hexV (hexDigU ((128 + c % 64) / 16)) = (128 + c % 64) / 16 :=
    hexV_hexDigU (by omega)
  have v6 : hexV (hexDigU ((128 + c % 64) % 16)) = (128 + c % 64) % 16 :=
    hexV_hexDigU (by omega)
  simp only [v1, v2, v3, v4, v5, v6]
  have n1e : (224 + c / 4096) / 16 * 16 + (224 + c / 4096) % 16 - 224 = c / 4096 := by
    omega
  have n2e : (128 + c / 64 % 64) / 16 * 16 + (128 + c / 64 % 64) % 16 - 128 =
      c / 64 % 64 := by omega
  have n3e : (128 + c % 64) / 16 * 16 + (128 + c % 64) % 16 - 128 = c % 64 := by omega
  simp only [n1e, n2e, n3e]
  have hov : (c / 4096 == 0 && decide (c / 64 % 64 < 32)) = false := by
    by_cases hz : c / 4096 = 0
    · have hge : ¬(c / 64 % 64 < 32) := by omega
      simp [hge]
    · have hb : (c / 4096 == 0) = false := by simpa [beq_eq_false_iff_ne]
      simp [hb]
  have hval : c / 4096 * 4096 + c / 64 % 64 * 64 + c % 64 = c := by omega
  simp only [hov, Bool.false_eq_true, if_false, hval]
  rw [if_neg (by omega)]
  simp only [List.drop_succ_cons, List.drop_zero, List.singleton_append]

theorem d3_chunk (c : Nat) (hc : c < 65536) (r : JStr) :
    decode3s (spChunk c ++ r) = c3Chunk c ++ decode3s r := by
  by_cases hbig : 2048 ≤ c
  · have h1 : uriUnescaped c = false := by
      by_contra hcon
      have := uriUnescaped_lt (by simpa using hcon)
      omega
    have h2 : (c == 32) = false := by simp only [beq_eq_false_iff_ne]; omega
    have hsp : spChunk c = escCP c := by simp [spChunk, h1, h2]
    have hc3 : c3Chunk c = [c] := by simp [c3Chunk, hbig]
    rw [hsp, hc3, d3_esc3 hbig hc r]
    rfl
  · have hc3 : c3Chunk c = spChunk c := by simp [c3Chunk, hbig]
    rw [hc3]
    by_cases hu : (uriUnescaped c || c == 32) = true
    · have hsp : spChunk c = [c] := by simp [spChunk, hu]
      rw [hsp, List.singleton_append, List.singleton_append]
      apply d3_lit
      simp only [Bool.or_eq_true, beq_iff_eq] at hu
      rcases hu with hu | rfl
      · have := (uriUnescaped_ne c hu).2.1
        simpa [beq_eq_false_iff_ne]
      · rfl
    · have hu' : (uriUnescaped c || c == 32) = false := by simpa using hu
      have hsp : spChunk c = escCP c := by simp [spChunk, hu']
      rw [hsp]
      by_cases hr1 : c < 128
      · rw [escCP_one hr1]
        simp only [List.cons_append, List.nil_append]
        exact d3_esc1 (lead3_hexDigU_false (by omega)) (hexDigU_ne37 (by omega))
          (hexDigU_ne37 (by omega)) r
      · have f1 : lead3 (hexDigU ((192 + c / 64) / 16)) = false :=
          lead3_hexDigU_false (by omega)
        have f2 : (hexDigU ((192 + c / 64) / 16) == 37) = false :=
          hexDigU_ne37 (by omega)
        have f3 : (hexDigU ((192 + c / 64) % 16) == 37) = false :=
          hexDigU_ne37 (by omega)
        have g1 : lead3 (hexDigU ((128 + c % 64) / 16)) = false :=
          lead3_hexDigU_false (by omega)
        have g2 : (hexDigU ((128 + c % 64) / 16) == 37) = false :=
          hexDigU_ne37 (by omega)
        have g3 : (hexDigU ((128 + c % 64) % 16) == 37) = false :=
          hexDigU_ne37 (by omega)
        rw [escCP_two (by omega) (by omega)]
        simp only [List.cons_append, List.nil_append]
        rw [d3_esc1 f1 f2 f3, d3_esc1 g1 g2 g3]

theorem d3_chunks : ∀ (s : JStr), (∀ c ∈ s, c < 65536) →
    decode3s ((s.map spChunk).flatten) = (s.map c3Chunk).flatten := by
  intro s
  induction s with
  | nil => intro _; rfl
  | cons c r ih =>
    intro hs
    simp only [List.map_cons, List.flatten_cons]
    rw [d3_chunk c (hs c (by simp)), ih (fun x hx => hs x (by simp [hx]))]

theorem d2_lit {x : Nat} (hx : (x == 37) = false) (r : JStr) :
    decode2s (x :: r) = x :: decode2s r :=
  decode2s_neg (shape2_false_head hx r)

theorem d2_esc1 {d1 d2 : Nat} (h1 : lead2 d1 = false) (hd1 : (d1 == 37) = false)
    (hd2 : (d2 == 37) = false) (r : JStr) :
    decode2s (37 :: d1 :: d2 :: r) = 37 :: d1 :: d2 :: decode2s r := by
  rw [decode2s_neg (shape2_false_lead h1 _), d2_lit hd1, d2_lit hd2]

theorem rep2_eq (s : JStr) : rep2 s =
    (if hexV (s.getD 1 999) * 16 + hexV (s.getD 2 999) - 192 < 2 then s.take 6
     else [(hexV (s.getD 1 999) * 16 + hexV (s.getD 2 999) - 192) * 64 +
       (hexV (s.getD 4 999) * 16 + hexV (s.getD 5 999) - 128)]) := rfl

set_option maxRecDepth 4000 in
set_option maxHeartbeats 2000000 in
theorem d2_esc2 {c : Nat} (h1 : 128 ≤ c) (h2 : c < 2048) (r : JStr) :
    decode2s (escCP c ++ r) = c :: decode2s r := by
  rw [escCP_two h1 h2]
  simp only [List.cons_append, List.nil_append]
  have l1 : lead2 (hexDigU ((192 + c / 64) / 16)) = true :=
    lead2_hexDigU (by omega) (by omega)
  have x1 : hexU (hexDigU ((192 + c / 64) % 16)) = true := hexU_hexDigU (by omega)
  have cd1 : contD (hexDigU ((128 + c % 64) / 16)) = true :=
    contD_hexDigU (by omega) (by omega)
  have x2 : hexU (hexDigU ((128 + c % 64) % 16)) = true := hexU_hexDigU (by omega)
  have hsh : shape2 (37 :: hexDigU ((192 + c / 64) / 16) ::
      hexDigU ((192 + c / 64) % 16) :: 37 :: hexDigU ((128 + c % 64) / 16) ::
      hexDigU ((128 + c % 64) % 16) :: r) = true := by
    unfold shape2
    simp [List.getD_cons_zero, List.getD_cons_succ, l1, x1, cd1, x2]
  rw [decode2s_pos hsh, rep2_eq]
  simp only [List.getD_cons_zero, List.getD_cons_succ]
  have v1 : hexV (hexDigU ((192 + c / 64) / 16)) = (192 + c / 64) / 16 :=
    hexV_hexDigU (by omega)
  have v2 : hexV (hexDigU ((192 + c / 64) % 16)) = (192 + c / 64) % 16 :=
    hexV_hexDigU (by omega)
  have v3 : hexV (hexDigU ((128 + c % 64) / 16)) = (128 + c % 64) / 16 :=
    hexV_hexDigU (by omega)
  have v4 : hexV (hexDigU ((128 + c % 64) % 16)) = (128 + c % 64) % 16 :=
    hexV_hexDigU (by omega)
  simp only [v1, v2, v3, v4]
  have n1e : (192 + c / 64) / 16 * 16 + (192 + c / 64) % 16 - 192 = c / 64 := by omega
  have n2e : (128 + c % 64) / 16 * 16 + (128 + c % 64) % 16 - 128 = c % 64 := by omega
  simp only [n1e, n2e]
  rw [if_neg (by omega)]
  have hval : c / 64 * 64 + c % 64 = c := by omega
  simp only [hval, List.drop_succ_cons, List.drop_zero, List.singleton_append]

theorem d2_chunk (c : Nat) (hc : c < 65536) (r : JStr) :
    decode2s (c3Chunk c ++ r) = c2Chunk c ++ decode2s r := by
  by_cases hbig : 2048 ≤ c
  · have h3 : c3Chunk c = [c] := by simp [c3Chunk, hbig]
    have h2c : c2Chunk c = [c] := by simp [c2Chunk]; omega
    rw [h3, h2c, List.singleton_append, List.singleton_append]
    exact d2_lit (by simp only [beq_eq_false_iff_ne]; omega) r
  · have h3 : c3Chunk c = spChunk c := by simp [c3Chunk, hbig]
    rw [h3]
    by_cases hu : (uriUnescaped c || c == 32) = true
    · have hsp : spChunk c = [c] := by simp [spChunk, hu]
      have hlt : c < 128 := by
        simp only [Bool.or_eq_true, beq_iff_eq] at hu
        rcases hu with hu | rfl
        · exact uriUnescaped_lt hu
        · omega
      have h2c : c2Chunk c = c3Chunk c := by simp [c2Chunk]; omega
      rw [hsp, h2c, h3, hsp, List.singleton_append, List.singleton_append]
      apply d2_lit
      simp only [Bool.or_eq_true, beq_iff_eq] at hu
      rcases hu with hu | rfl
      · have := (uriUnescaped_ne c hu).2.1
        simpa [beq_eq_false_iff_ne]
      · rfl
    · have hu' : (uriUnescaped c || c == 32) = false := by simpa using hu
      have hsp : spChunk c = escCP c := by simp [spChunk, hu']
      rw [hsp]
      by_cases hr1 : c < 128
      · have h2c : c2Chunk c = c3Chunk c := by simp [c2Chunk]; omega
        rw [h2c, h3, hsp, escCP_one hr1]
        simp only [List.cons_append, List.nil_append]
        exact d2_esc1 (lead2_hexDigU_false (by omega)) (hexDigU_ne37 (by omega))
          (hexDigU_ne37 (by omega)) r
      · have h2c : c2Chunk c = [c] := by simp [c2Chunk]; omega
        rw [h2c, List.singleton_append]
        exact d2_esc2 (by omega) (by omega) r

theorem d2_chunks : ∀ (s : JStr), (∀ c ∈ s, c < 65536) →
    decode2s ((s.map c3Chunk).flatten) = (s.map c2Chunk).flatten := by
  intro s
  induction s with
  | nil => intro _; rfl
  | cons c r ih =>
    intro hs
    simp only [List.map_cons, List.flatten_cons]
    rw [d2_chunk c (hs c (by simp)), ih (fun x hx => hs x (by simp [hx]))]

theorem d1_lit {x : Nat} (hx : (x == 37) = false) (r : JStr) :
    decode1s (x :: r) = x :: decode1s r :=
  decode1s_neg (shape1_false_head hx r)

set_option maxRecDepth 4000 in
set_option maxHeartbeats 2000000 in
theorem d1_esc1 {c : Nat} (h1 : c < 128) (r : JStr) :
    decode1s (escCP c ++ r) = c :: decode1s r := by
  rw [escCP_one h1]
  simp only [List.cons_append, List.nil_append]
  have a1 : asc1 (hexDigU (c / 16)) = true := asc1_hexDigU (by omega)
  have x1 : hexU (hexDigU (c % 16)) = true := hexU_hexDigU (by omega)
  have hsh : shape1 (37 :: hexDigU (c / 16) :: hexDigU (c % 16) :: r) = true := by
    unfold shape1
    simp [List.getD_cons_zero, List.getD_cons_succ, a1, x1]
  rw [decode1s_pos hsh]
  unfold rep1
  simp only [List.getD_cons_zero, List.getD_cons_succ]
  have v1 : hexV (hexDigU (c / 16)) = c / 16 := hexV_hexDigU (by omega)
  have v2 : hexV (hexDigU (c % 16)) = c % 16 := hexV_hexDigU (by omega)
  simp only [v1, v2]
  have hval : c / 16 * 16 + c % 16 = c := by omega
  simp only [hval, List.drop_succ_cons, List.drop_zero, List.singleton_append]

theorem d1_chunk (c : Nat) (hc : c < 65536) (r : JStr) :
    decode1s (c2Chunk c ++ r) = c :: decode1s r := by
  by_cases hbig : 128 ≤ c
  · have h2c : c2Chunk c = [c] := by simp [c2Chunk]; omega
    rw [h2c, List.singleton_append]
    exact d1_lit (by simp only [beq_eq_false_iff_ne]; omega) r
  · have h2c : c2Chunk c = c3Chunk c := by simp [c2Chunk]; omega
    have h3 : c3Chunk c = spChunk c := by simp [c3Chunk]; omega
    rw [h2c, h3]
    by_cases hu : (uriUnescaped c || c == 32) = true
    · have hsp : spChunk c = [c] := by simp [spChunk, hu]
      rw [hsp, List.singleton_append]
      apply d1_lit
      simp only [Bool.or_eq_true, beq_iff_eq] at hu
      rcases hu with hu | rfl
      · have := (uriUnescaped_ne c hu).2.1
        simpa [beq_eq_false_iff_ne]
      · rfl
    · have hu' : (uriUnescaped c || c == 32) = false := by simpa using hu
      have hsp : spChunk c = escCP c := by simp [spChunk, hu']
      rw [hsp]
      exact d1_esc1 (by omega) r

theorem d1_chunks : ∀ (s : JStr), (∀ c ∈ s, c < 65536) →
    decode1s ((s.map c2Chunk).flatten) = s := by
  intro s
  induction s with
  | nil => intro _; rfl
  | cons c r ih =>
    intro hs
    simp only [List.map_cons, List.flatten_cons]
    rw [d1_chunk c (hs c (by simp)), ih (fun x hx => hs x (by simp [hx]))]

/-- C10: exact round trip on the basic multilingual plane: for every string
of code units at or below 0xFFFF with no surrogates, decode inverts encode;
the plus substitution and the three escape passes of decode exactly undo
the percent-encoding and the %20-to-plus substitution of encode. -/
theorem C10_decode_encode_roundtrip (s : JStr)
    (hs : ∀ c ∈ s, c < 65536 ∧ (c < 55296 ∨ 57343 < c)) :
    (QueryString.encode s).map QueryString.decode = some s := by
  have hs1 : ∀ c ∈ s, c < 65536 := fun c hc => (hs c hc).1
  unfold QueryString.encode encodeURIComponent
  rw [euriGo_bmp s.length s (Nat.le_refl _) hs]
  simp only [Option.map_some']
  rw [plusify_chunks s hs1]
  unfold QueryString.decode
  rw [plusSp_chunks s hs1, d3_chunks s hs1, d2_chunks s hs1, d1_chunks s hs1]

/-- Witness for C10 at the string containing a space, a percent sign, a
2-byte and a 3-byte character. -/
theorem C10_decode_encode_roundtrip_witness :
    (QueryString.encode (str "a b%é℠")).map QueryString.decode =
      some (str "a b%é℠") :=
  C10_decode_encode_roundtrip (str "a b%é℠") (by decide)

theorem getD_append_lt {l r : JStr} {n : Nat} (h : n < l.length) (d : Nat) :
    (l ++ r).getD n d = l.getD n d := by
  simp only [List.getD_eq_getElem?_getD, List.getElem?_append_left h]

theorem getD_append_ge {l r : JStr} {n : Nat} (h : l.length ≤ n) (d : Nat) :
    (l ++ r).getD n d = r.getD (n - l.length) d := by
  simp only [List.getD_eq_getElem?_getD, List.getElem?_append_right h]

theorem shape3_append {P R : JStr} (h : 9 ≤ P.length) :
    shape3 (P ++ R) = shape3 P := by
  have e0 : (P ++ R).getD 0 999 = P.getD 0 999 := getD_append_lt (by omega) 999
  have e1 : (P ++ R).getD 1 999 = P.getD 1 999 := getD_append_lt (by omega) 999
  have e2 : (P ++ R).getD 2 999 = P.getD 2 999 := getD_append_lt (by omega) 999
  have e3 : (P ++ R).getD 3 999 = P.getD 3 999 := getD_append_lt (by omega) 999
  have e4 : (P ++ R).getD 4 999 = P.getD 4 999 := getD_append_lt (by omega) 999
  have e5 : (P ++ R).getD 5 999 = P.getD 5 999 := getD_append_lt (by omega) 999
  have e6 : (P ++ R).getD 6 999 = P.getD 6 999 := getD_append_lt (by omega) 999
  have e7 : (P ++ R).getD 7 999 = P.getD 7 999 := getD_append_lt (by omega) 999
  have e8 : (P ++ R).getD 8 999 = P.getD 8 999 := getD_append_lt (by omega) 999
  unfold shape3
  rw [e0, e1, e2, e3, e4, e5, e6, e7, e8]

theorem rep3_append {P R : JStr} (h : 9 ≤ P.length) :
    rep3 (P ++ R) = rep3 P := by
  have e1 : (P ++ R).getD 1 999 = P.getD 1 999 := getD_append_lt (by omega) 999
  have e2 : (P ++ R).getD 2 999 = P.getD 2 999 := getD_append_lt (by omega) 999
  have e4 : (P ++ R).getD 4 999 = P.getD 4 999 := getD_append_lt (by omega) 999
  have e5 : (P ++ R).getD 5 999 = P.getD 5 999 := getD_append_lt (by omega) 999
  have e7 : (P ++ R).getD 7 999 = P.getD 7 999 := getD_append_lt (by omega) 999
  have e8 : (P ++ R).getD 8 999 = P.getD 8 999 := getD_append_lt (by omega) 999
  have et : (P ++ R).take 9 = P.take 9 := List.take_append_of_le_length (by omega)
  rw [rep3_eq, rep3_eq]
  simp only [e1, e2, e4, e5, e7, e8, et]

theorem lead3_vals {a : Nat} (ha : lead3 a = true) : a = 69 ∨ a = 70 := by
  unfold lead3 at ha
  simpa [Bool.or_eq_true, beq_iff_eq] using ha

theorem contD_vals {c : Nat} (hc : contD c = true) :
    c = 56 ∨ c = 57 ∨ c = 65 ∨ c = 66 := by
  unfold contD at hc
  simp only [Bool.or_eq_true, beq_iff_eq] at hc
  tauto

theorem shape3_straddle {P Q : JStr} {a b c d e f : Nat}
    (ha : lead3 a = true) (h1 : 1 ≤ P.length) (h8 : P.length ≤ 8) :
    shape3 (P ++ 37 :: a :: b :: 37 :: c :: d :: 37 :: e :: f :: Q) = false := by
  by_contra hcon
  have hsh : shape3 (P ++ 37 :: a :: b :: 37 :: c :: d :: 37 :: e :: f :: Q) = true := by
    simpa using hcon
  unfold shape3 at hsh
  simp only [Bool.and_eq_true, beq_iff_eq] at hsh
  obtain ⟨⟨⟨⟨⟨⟨⟨⟨g0, g1⟩, g2⟩, g3⟩, g4⟩, g5⟩, g6⟩, g7⟩, g8⟩ := hsh
  have hav := lead3_vals ha
  have hk : P.length = 1 ∨ P.length = 2 ∨ P.length = 3 ∨ P.length = 4 ∨
      P.length = 5 ∨ P.length = 6 ∨ P.length = 7 ∨ P.length = 8 := by omega
  rcases hk with hk | hk | hk | hk | hk | hk | hk | hk
  · have e : (P ++ 37 :: a :: b :: 37 :: c :: d :: 37 :: e :: f :: Q).getD 1 999 =
        (37 :: a :: b :: 37 :: c :: d :: 37 :: e :: f :: Q).getD 0 999 := by
      rw [getD_append_ge (by omega) 999, hk]
    rw [e] at g1
    simp [lead3] at g1
  · have e : (P ++ 37 :: a :: b :: 37 :: c :: d :: 37 :: e :: f :: Q).getD 2 999 =
        (37 :: a :: b :: 37 :: c :: d :: 37 :: e :: f :: Q).getD 0 999 := by
      rw [getD_append_ge (by omega) 999, hk]
    rw [e] at g2
    simp [hexU] at g2
  · have e : (P ++ 37 :: a :: b :: 37 :: c :: d :: 37 :: e :: f :: Q).getD 4 999 =
        (37 :: a :: b :: 37 :: c :: d :: 37 :: e :: f :: Q).getD 1 999 := by
      rw [getD_append_ge (by omega) 999, hk]
    rw [e] at g4
    simp only [List.getD_cons_succ, List.getD_cons_zero] at g4
    rcases contD_vals g4 with hv | hv | hv | hv <;> omega
  · have e : (P ++ 37 :: a :: b :: 37 :: c :: d :: 37 :: e :: f :: Q).getD 4 999 =
        (37 :: a :: b :: 37 :: c :: d :: 37 :: e :: f :: Q).getD 0 999 := by
      rw [getD_append_ge (by omega) 999, hk]
    rw [e] at g4
    simp [contD] at g4
  · have e : (P ++ 37 :: a :: b :: 37 :: c :: d :: 37 :: e :: f :: Q).getD 5 999 =
        (37 :: a :: b :: 37 :: c :: d :: 37 :: e :: f :: Q).getD 0 999 := by
      rw [getD_append_ge (by omega) 999, hk]
    rw [e] at g5
    simp [hexU] at g5
  · have e : (P ++ 37 :: a :: b :: 37 :: c :: d :: 37 :: e :: f :: Q).getD 7 999 =
        (37 :: a :: b :: 37 :: c :: d :: 37 :: e :: f :: Q).getD 1 999 := by
      rw [getD_append_ge (by omega) 999, hk]
    rw [e] at g7
    simp only [List.getD_cons_succ, List.getD_cons_zero] at g7
    rcases contD_vals g7 with hv | hv | hv | hv <;> omega
  · have e : (P ++ 37 :: a :: b :: 37 :: c :: d :: 37 :: e :: f :: Q).getD 7 999 =
        (37 :: a :: b :: 37 :: c :: d :: 37 :: e :: f :: Q).getD 0 999 := by
      rw [getD_append_ge (by omega) 999, hk]
    rw [e] at g7
    simp [contD] at g7
  · have e : (P ++ 37 :: a :: b :: 37 :: c :: d :: 37 :: e :: f :: Q).getD 8 999 =
        (37 :: a :: b :: 37 :: c :: d :: 37 :: e :: f :: Q).getD 0 999 := by
      rw [getD_append_ge (by omega) 999, hk]
    rw [e] at g8
    simp [hexU] at g8

set_option maxRecDepth 4000 in
theorem d3_boundary {a b c d e f : Nat}
    (ha : lead3 a = true) (hb : hexU b = true) (hc : contD c = true)
    (hd : hexU d = true) (he : contD e = true) (hf : hexU f = true) :
    ∀ (n : Nat) (P Q : JStr), P.length = n →
      decode3s (P ++ 37 :: a :: b :: 37 :: c :: d :: 37 :: e :: f :: Q) =
        decode3s P ++ rep3 [37, a, b, 37, c, d, 37, e, f] ++ decode3s Q := by
  intro n
  induction n using Nat.strong_induction_on with
  | _ n IH =>
    intro P Q hn
    cases P with
    | nil =>
      have hsh : shape3 (37 :: a :: b :: 37 :: c :: d :: 37 :: e :: f :: Q) = true := by
        unfold shape3
        simp [List.getD_cons_zero, List.getD_cons_succ, ha, hb, hc, hd, he, hf]
      rw [List.nil_append, decode3s_pos hsh]
      have hr : rep3 (37 :: a :: b :: 37 :: c :: d :: 37 :: e :: f :: Q) =
          rep3 [37, a, b, 37, c, d, 37, e, f] := by
        rw [rep3_eq, rep3_eq]
        simp only [List.getD_cons_succ, List.getD_cons_zero, List.take_succ_cons,
          List.take_zero]
      rw [hr]
      have h0 : decode3s ([] : JStr) = [] := rfl
      rw [h0]
      simp only [List.drop_succ_cons, List.drop_zero, List.nil_append]
    | cons x P' =>
      simp only [List.cons_append]
      have hn' : n = P'.length + 1 := by simpa using hn.symm
      by_cases hsh : shape3 (x :: (P' ++ 37 :: a :: b :: 37 :: c :: d :: 37 :: e :: f :: Q)) = true
      · by_cases hl : 9 ≤ (x :: P').length
        · have hshP : shape3 (x :: P') = true := by
            have h2 : shape3 ((x :: P') ++ (37 :: a :: b :: 37 :: c :: d :: 37 :: e :: f :: Q)) =
                shape3 (x :: P') := shape3_append hl
            rw [List.cons_append] at h2
            rw [← h2]
            exact hsh
          have hrep : rep3 (x :: (P' ++ 37 :: a :: b :: 37 :: c :: d :: 37 :: e :: f :: Q)) =
              rep3 (x :: P') := by
            have h2 : rep3 ((x :: P') ++ (37 :: a :: b :: 37 :: c :: d :: 37 :: e :: f :: Q)) =
                rep3 (x :: P') := rep3_append hl
            rw [List.cons_append] at h2
            exact h2
          have hdrop : (x :: (P' ++ 37 :: a :: b :: 37 :: c :: d :: 37 :: e :: f :: Q)).drop 9 =
              (x :: P').drop 9 ++ (37 :: a :: b :: 37 :: c :: d :: 37 :: e :: f :: Q) := by
            have h2 : ((x :: P') ++ (37 :: a :: b :: 37 :: c :: d :: 37 :: e :: f :: Q)).drop 9 =
                (x :: P').drop 9 ++ (37 :: a :: b :: 37 :: c :: d :: 37 :: e :: f :: Q) :=
              List.drop_append_of_le_length hl
            rw [List.cons_append] at h2
            exact h2
          rw [decode3s_pos hsh, decode3s_pos hshP, hrep, hdrop]
          rw [IH ((x :: P').drop 9).length
            (by simp only [List.length_drop, List.length_cons]; omega) _ Q rfl]
          simp [List.append_assoc]
        · have h1 : 1 ≤ (x :: P').length := by simp
          have h8 : (x :: P').length ≤ 8 := by
            simp only [List.length_cons] at hl ⊢
            omega
          have hfalse : shape3 ((x :: P') ++ 37 :: a :: b :: 37 :: c :: d :: 37 :: e :: f :: Q) =
              false := shape3_straddle ha h1 h8
          rw [List.cons_append] at hfalse
          exact absurd hsh (by simp [hfalse])
      · have hsh' : shape3 (x :: (P' ++ 37 :: a :: b :: 37 :: c :: d :: 37 :: e :: f :: Q)) =
            false := by simpa using hsh
        rw [decode3s_neg hsh']
        have hshP : shape3 (x :: P') = false := by
          by_cases hl : 9 ≤ (x :: P').length
          · have h2 : shape3 ((x :: P') ++ (37 :: a :: b :: 37 :: c :: d :: 37 :: e :: f :: Q)) =
                shape3 (x :: P') := shape3_append hl
            rw [List.cons_append] at h2
            rw [← h2]
            exact hsh'
          · by_contra hcon
            have hb9 : shape3 (x :: P') = true := by simpa using hcon
            have h9 := shape3_length hb9
            omega
        rw [decode3s_neg hshP]
        rw [IH P'.length (by omega) P' Q rfl]
        simp

theorem lead2_hexU {x : Nat} (h : lead2 x = true) : hexU x = true := by
  unfold lead2 at h
  unfold hexU
  simp only [Bool.or_eq_true, beq_iff_eq] at h
  simp only [Bool.or_eq_true, Bool.and_eq_true, decide_eq_true_eq]
  omega

theorem contD_hexU {x : Nat} (h : contD x = true) : hexU x = true := by
  unfold contD at h
  unfold hexU
  simp only [Bool.or_eq_true, beq_iff_eq] at h
  simp only [Bool.or_eq_true, Bool.and_eq_true, decide_eq_true_eq]
  omega

theorem asc1_hexU {x : Nat} (h : asc1 x = true) : hexU x = true := by
  unfold asc1 at h
  unfold hexU
  simp only [Bool.and_eq_true, decide_eq_true_eq] at h
  simp only [Bool.or_eq_true, Bool.and_eq_true, decide_eq_true_eq]
  omega

theorem shape2_append {P R : JStr} (h : 6 ≤ P.length) :
    shape2 (P ++ R) = shape2 P := by
  have e0 : (P ++ R).getD 0 999 = P.getD 0 999 := getD_append_lt (by omega) 999
  have e1 : (P ++ R).getD 1 999 = P.getD 1 999 := getD_append_lt (by omega) 999
  have e2 : (P ++ R).getD 2 999 = P.getD 2 999 := getD_append_lt (by omega) 999
  have e3 : (P ++ R).getD 3 999 = P.getD 3 999 := getD_append_lt (by omega) 999
  have e4 : (P ++ R).getD 4 999 = P.getD 4 999 := getD_append_lt (by omega) 999
  have e5 : (P ++ R).getD 5 999 = P.getD 5 999 := getD_append_lt (by omega) 999
  unfold shape2
  rw [e0, e1, e2, e3, e4, e5]

theorem rep2_append {P R : JStr} (h : 6 ≤ P.length) :
    rep2 (P ++ R) = rep2 P := by
  have e1 : (P ++ R).getD 1 999 = P.getD 1 999 := getD_append_lt (by omega) 999
  have e2 : (P ++ R).getD 2 999 = P.getD 2 999 := getD_append_lt (by omega) 999
  have e4 : (P ++ R).getD 4 999 = P.getD 4 999 := getD_append_lt (by omega) 999
  have e5 : (P ++ R).getD 5 999 = P.getD 5 999 := getD_append_lt (by omega) 999
  have et : (P ++ R).take 6 = P.take 6 := List.take_append_of_le_length (by omega)
  rw [rep2_eq, rep2_eq]
  simp only [e1, e2, e4, e5, et]

theorem shape1_append {P R : JStr} (h : 3 ≤ P.length) :
    shape1 (P ++ R) = shape1 P := by
  have e0 : (P ++ R).getD 0 999 = P.getD 0 999 := getD_append_lt (by omega) 999
  have e1 : (P ++ R).getD 1 999 = P.getD 1 999 := getD_append_lt (by omega) 999
  have e2 : (P ++ R).getD 2 999 = P.getD 2 999 := getD_append_lt (by omega) 999
  unfold shape1
  rw [e0, e1, e2]

theorem rep1_append {P R : JStr} (h : 3 ≤ P.length) :
    rep1 (P ++ R) = rep1 P := by
  have e1 : (P ++ R).getD 1 999 = P.getD 1 999 := getD_append_lt (by omega) 999
  have e2 : (P ++ R).getD 2 999 = P.getD 2 999 := getD_append_lt (by omega) 999
  unfold rep1
  rw [e1, e2]

theorem shape2_straddle_char {P Q : JStr} {m : Nat}
    (hm1 : (m == 37) = false) (hm2 : hexU m = false)
    (h1 : 1 ≤ P.length) (h5 : P.length ≤ 5) :
    shape2 (P ++ m :: Q) = false := by
  by_contra hcon
  have hsh : shape2 (P ++ m :: Q) = true := by simpa using hcon
  unfold shape2 at hsh
  simp only [Bool.and_eq_true, beq_iff_eq] at hsh
  obtain ⟨⟨⟨⟨⟨g0, g1⟩, g2⟩, g3⟩, g4⟩, g5⟩ := hsh
  have hm37 : m ≠ 37 := by simpa [beq_eq_false_iff_ne] using hm1
  have hk : P.length = 1 ∨ P.length = 2 ∨ P.length = 3 ∨ P.length = 4 ∨
      P.length = 5 := by omega
  rcases hk with hk | hk | hk | hk | hk
  · have e : (P ++ m :: Q).getD 1 999 = (m :: Q).getD 0 999 := by
      rw [getD_append_ge (by omega) 999, hk]
    rw [e] at g1
    exact absurd (lead2_hexU g1) (by simp [hm2])
  · have e : (P ++ m :: Q).getD 2 999 = (m :: Q).getD 0 999 := by
      rw [getD_append_ge (by omega) 999, hk]
    rw [e] at g2
    exact absurd g2 (by simp [hm2])
  · have e : (P ++ m :: Q).getD 3 999 = (m :: Q).getD 0 999 := by
      rw [getD_append_ge (by omega) 999, hk]
    rw [e] at g3
    exact absurd g3 (by simpa using hm37)
  · have e : (P ++ m :: Q).getD 4 999 = (m :: Q).getD 0 999 := by
      rw [getD_append_ge (by omega) 999, hk]
    rw [e] at g4
    exact absurd (contD_hexU g4) (by simp [hm2])
  · have e : (P ++ m :: Q).getD 5 999 = (m :: Q).getD 0 999 := by
      rw [getD_append_ge (by omega) 999, hk]
    rw [e] at g5
    exact absurd g5 (by simp [hm2])

theorem shape1_straddle_char {P Q : JStr} {m : Nat}
    (hm2 : hexU m = false) (h1 : 1 ≤ P.length) (h2 : P.length ≤ 2) :
    shape1 (P ++ m :: Q) = false := by
  by_contra hcon
  have hsh : shape1 (P ++ m :: Q) = true := by simpa using hcon
  unfold shape1 at hsh
  simp only [Bool.and_eq_true, beq_iff_eq] at hsh
  obtain ⟨⟨g0, g1⟩, g2⟩ := hsh
  have hk : P.length = 1 ∨ P.length = 2 := by omega
  rcases hk with hk | hk
  · have e : (P ++ m :: Q).getD 1 999 = (m :: Q).getD 0 999 := by
      rw [getD_append_ge (by omega) 999, hk]
    rw [e] at g1
    exact absurd (asc1_hexU g1) (by simp [hm2])
  · have e : (P ++ m :: Q).getD 2 999 = (m :: Q).getD 0 999 := by
      rw [getD_append_ge (by omega) 999, hk]
    rw [e] at g2
    exact absurd g2 (by simp [hm2])

theorem lead3_hexU {x : Nat} (h : lead3 x = true) : hexU x = true := by
  unfold lead3 at h
  unfold hexU
  simp only [Bool.or_eq_true, beq_iff_eq] at h
  simp only [Bool.or_eq_true, Bool.and_eq_true, decide_eq_true_eq]
  omega

theorem lead3_lead2_false {x : Nat} (h : lead3 x = true) : lead2 x = false := by
  rcases lead3_vals h with h | h <;> subst h <;> decide

theorem contD_lead2_false {x : Nat} (h : contD x = true) : lead2 x = false := by
  rcases contD_vals h with h | h | h | h <;> subst h <;> decide

theorem lead3_asc1_false {x : Nat} (h : lead3 x = true) : asc1 x = false := by
  rcases lead3_vals h with h | h <;> subst h <;> decide

theorem contD_asc1_false {x : Nat} (h : contD x = true) : asc1 x = false := by
  rcases contD_vals h with h | h | h | h <;> subst h <;> decide

theorem hexU_ne43 {x : Nat} (h : hexU x = true) : (x == 43) = false := by
  unfold hexU at h
  simp only [Bool.or_eq_true, Bool.and_eq_true, decide_eq_true_eq] at h
  simp only [beq_eq_false_iff_ne, ne_eq]
  omega

theorem plusSp_append (X Y : JStr) : plusSp (X ++ Y) = plusSp X ++ plusSp Y := by
  unfold plusSp
  exact List.map_append _ X Y

theorem plusSp_cons_ne {x : Nat} (h : (x == 43) = false) (r : JStr) :
    plusSp (x :: r) = x :: plusSp r := by
  unfold plusSp
  simp only [List.map_cons, h, Bool.false_eq_true, if_false]

theorem plusSp_triple {a b c d e f : Nat}
    (ha : lead3 a = true) (hb : hexU b = true) (hc : contD c = true)
    (hd : hexU d = true) (he : contD e = true) (hf : hexU f = true) (R : JStr) :
    plusSp (37 :: a :: b :: 37 :: c :: d :: 37 :: e :: f :: R) =
      37 :: a :: b :: 37 :: c :: d :: 37 :: e :: f :: plusSp R := by
  rw [plusSp_cons_ne (by decide), plusSp_cons_ne (hexU_ne43 (lead3_hexU ha)),
    plusSp_cons_ne (hexU_ne43 hb), plusSp_cons_ne (by decide),
    plusSp_cons_ne (hexU_ne43 (contD_hexU hc)), plusSp_cons_ne (hexU_ne43 hd),
    plusSp_cons_ne (by decide), plusSp_cons_ne (hexU_ne43 (contD_hexU he)),
    plusSp_cons_ne (hexU_ne43 hf)]

theorem lead3_hexV {x : Nat} (h : lead3 x = true) : 14 ≤ hexV x ∧ hexV x ≤ 15 := by
  rcases lead3_vals h with h | h <;> subst h <;> decide

theorem contD_hexV {x : Nat} (h : contD x = true) : 8 ≤ hexV x ∧ hexV x ≤ 11 := by
  rcases contD_vals h with h | h | h | h <;> subst h <;> decide

theorem hexU_hexV {x : Nat} (h : hexU x = true) : hexV x ≤ 15 := by
  rcases hexU_vals h with ⟨h1, h2⟩ | ⟨h1, h2⟩ <;> unfold hexV <;> split_ifs <;> omega

theorem rep3_cases {a b c d e f : Nat}
    (ha : lead3 a = true) (hb : hexU b = true) (hc : contD c = true)
    (hd : hexU d = true) (he : contD e = true) (hf : hexU f = true) :
    rep3 [37, a, b, 37, c, d, 37, e, f] = [37, a, b, 37, c, d, 37, e, f] ∨
      ∃ n, rep3 [37, a, b, 37, c, d, 37, e, f] = [n] ∧ 2048 ≤ n ∧ n ≤ 65535 := by
  have hA := lead3_hexV ha
  have hB := hexU_hexV hb
  have hC := contD_hexV hc
  have hD := hexU_hexV hd
  have hE := contD_hexV he
  have hF := hexU_hexV hf
  rw [rep3_eq]
  simp only [List.getD_cons_succ, List.getD_cons_zero, List.take_succ_cons,
    List.take_zero]
  split_ifs with h1 h2
  · left
    rfl
  · left
    rfl
  · right
    simp only [Bool.and_eq_true, beq_iff_eq, decide_eq_true_eq] at h1
    refine ⟨_, rfl, ?_, ?_⟩
    · omega
    · omega

theorem shape2_straddle_tri {a b c d e f : Nat} (ha : lead3 a = true)
    {P Q : JStr} (h1 : 1 ≤ P.length) (h5 : P.length ≤ 5) :
    shape2 (P ++ 37 :: a :: b :: 37 :: c :: d :: 37 :: e :: f :: Q) = false := by
  by_contra hcon
  have hsh : shape2 (P ++ 37 :: a :: b :: 37 :: c :: d :: 37 :: e :: f :: Q) = true := by
    simpa using hcon
  unfold shape2 at hsh
  simp only [Bool.and_eq_true, beq_iff_eq] at hsh
  obtain ⟨⟨⟨⟨⟨g0, g1⟩, g2⟩, g3⟩, g4⟩, g5⟩ := hsh
  have hav := lead3_vals ha
  have hk : P.length = 1 ∨ P.length = 2 ∨ P.length = 3 ∨ P.length = 4 ∨
      P.length = 5 := by omega
  rcases hk with hk | hk | hk | hk | hk
  · have e : (P ++ 37 :: a :: b :: 37 :: c :: d :: 37 :: e :: f :: Q).getD 1 999 =
        (37 :: a :: b :: 37 :: c :: d :: 37 :: e :: f :: Q).getD 0 999 := by
      rw [getD_append_ge (by omega) 999, hk]
    rw [e] at g1
    simp [lead2] at g1
  · have e : (P ++ 37 :: a :: b :: 37 :: c :: d :: 37 :: e :: f :: Q).getD 2 999 =
        (37 :: a :: b :: 37 :: c :: d :: 37 :: e :: f :: Q).getD 0 999 := by
      rw [getD_append_ge (by omega) 999, hk]
    rw [e] at g2
    simp [hexU] at g2
  · have e : (P ++ 37 :: a :: b :: 37 :: c :: d :: 37 :: e :: f :: Q).getD 4 999 =
        (37 :: a :: b :: 37 :: c :: d :: 37 :: e :: f :: Q).getD 1 999 := by
      rw [getD_append_ge (by omega) 999, hk]
    rw [e] at g4
    simp only [List.getD_cons_succ, List.getD_cons_zero] at g4
    rcases contD_vals g4 with hv | hv | hv | hv <;> omega
  · have e : (P ++ 37 :: a :: b :: 37 :: c :: d :: 37 :: e :: f :: Q).getD 4 999 =
        (37 :: a :: b :: 37 :: c :: d :: 37 :: e :: f :: Q).getD 0 999 := by
      rw [getD_append_ge (by omega) 999, hk]
    rw [e] at g4
    simp [contD] at g4
  · have e : (P ++ 37 :: a :: b :: 37 :: c :: d :: 37 :: e :: f :: Q).getD 5 999 =
        (37 :: a :: b :: 37 :: c :: d :: 37 :: e :: f :: Q).getD 0 999 := by
      rw [getD_append_ge (by omega) 999, hk]
    rw [e] at g5
    simp [hexU] at g5

theorem shape1_straddle_tri {a b c d e f : Nat}
    {P Q : JStr} (h1 : 1 ≤ P.length) (h2 : P.length ≤ 2) :
    shape1 (P ++ 37 :: a :: b :: 37 :: c :: d :: 37 :: e :: f :: Q) = false := by
  by_contra hcon
  have hsh : shape1 (P ++ 37 :: a :: b :: 37 :: c :: d :: 37 :: e :: f :: Q) = true := by
    simpa using hcon
  unfold shape1 at hsh
  simp only [Bool.and_eq_true, beq_iff_eq] at hsh
  obtain ⟨⟨g0, g1⟩, g2⟩ := hsh
  have hk : P.length = 1 ∨ P.length = 2 := by omega
  rcases hk with hk | hk
  · have e : (P ++ 37 :: a :: b :: 37 :: c :: d :: 37 :: e :: f :: Q).getD 1 999 =
        (37 :: a :: b :: 37 :: c :: d :: 37 :: e :: f :: Q).getD 0 999 := by
      rw [getD_append_ge (by omega) 999, hk]
    rw [e] at g1
    simp [asc1] at g1
  · have e : (P ++ 37 :: a :: b :: 37 :: c :: d :: 37 :: e :: f :: Q).getD 2 999 =
        (37 :: a :: b :: 37 :: c :: d :: 37 :: e :: f :: Q).getD 0 999 := by
      rw [getD_append_ge (by omega) 999, hk]
    rw [e] at g2
    simp [hexU] at g2

theorem d2_triple {a b c d e f : Nat}
    (ha : lead3 a = true) (hb : hexU b = true) (hc : contD c = true)
    (hd : hexU d = true) (he : contD e = true) (hf : hexU f = true) (R : JStr) :
    decode2s (37 :: a :: b :: 37 :: c :: d :: 37 :: e :: f :: R) =
      37 :: a :: b :: 37 :: c :: d :: 37 :: e :: f :: decode2s R := by
  rw [d2_esc1 (lead3_lead2_false ha) (hexU_ne37 (lead3_hexU ha)) (hexU_ne37 hb),
    d2_esc1 (contD_lead2_false hc) (hexU_ne37 (contD_hexU hc)) (hexU_ne37 hd),
    d2_esc1 (contD_lead2_false he) (hexU_ne37 (contD_hexU he)) (hexU_ne37 hf)]

theorem d1_skip {g h : Nat} (h1 : asc1 g = false) (hg : (g == 37) = false)
    (hh : (h == 37) = false) (r : JStr) :
    decode1s (37 :: g :: h :: r) = 37 :: g :: h :: decode1s r := by
  rw [decode1s_neg (shape1_false_lead h1 _), d1_lit hg, d1_lit hh]

theorem d1_triple {a b c d e f : Nat}
    (ha : lead3 a = true) (hb : hexU b = true) (hc : contD c = true)
    (hd : hexU d = true) (he : contD e = true) (hf : hexU f = true) (R : JStr) :
    decode1s (37 :: a :: b :: 37 :: c :: d :: 37 :: e :: f :: R) =
      37 :: a :: b :: 37 :: c :: d :: 37 :: e :: f :: decode1s R := by
  rw [d1_skip (lead3_asc1_false ha) (hexU_ne37 (lead3_hexU ha)) (hexU_ne37 hb),
    d1_skip (contD_asc1_false hc) (hexU_ne37 (contD_hexU hc)) (hexU_ne37 hd),
    d1_skip (contD_asc1_false he) (hexU_ne37 (contD_hexU he)) (hexU_ne37 hf)]

theorem d2_char {m : Nat} (hm1 : (m == 37) = false) (hm2 : hexU m = false) :
    ∀ (n : Nat) (P Q : JStr), P.length = n →
      decode2s (P ++ m :: Q) = decode2s P ++ m :: decode2s Q := by
  intro n
  induction n using Nat.strong_induction_on with
  | _ n IH =>
    intro P Q hn
    cases P with
    | nil =>
      rw [List.nil_append, d2_lit hm1]
      rfl
    | cons x P' =>
      simp only [List.cons_append]
      have hn' : n = P'.length + 1 := by simpa using hn.symm
      by_cases hsh : shape2 (x :: (P' ++ m :: Q)) = true
      · by_cases hl : 6 ≤ (x :: P').length
        · have hshP : shape2 (x :: P') = true := by
            have h2 : shape2 ((x :: P') ++ (m :: Q)) = shape2 (x :: P') :=
              shape2_append hl
            rw [List.cons_append] at h2
            rw [← h2]
            exact hsh
          have hrep : rep2 (x :: (P' ++ m :: Q)) = rep2 (x :: P') := by
            have h2 : rep2 ((x :: P') ++ (m :: Q)) = rep2 (x :: P') := rep2_append hl
            rw [List.cons_append] at h2
            exact h2
          have hdrop : (x :: (P' ++ m :: Q)).drop 6 = (x :: P').drop 6 ++ (m :: Q) := by
            have h2 : ((x :: P') ++ (m :: Q)).drop 6 = (x :: P').drop 6 ++ (m :: Q) :=
              List.drop_append_of_le_length hl
            rw [List.cons_append] at h2
            exact h2
          rw [decode2s_pos hsh, decode2s_pos hshP, hrep, hdrop]
          rw [IH ((x :: P').drop 6).length
            (by simp only [List.length_drop, List.length_cons]; omega) _ Q rfl]
          simp [List.append_assoc]
        · have h1 : 1 ≤ (x :: P').length := by simp
          have h5 : (x :: P').length ≤ 5 := by
            simp only [List.length_cons] at hl ⊢
            omega
          have hfalse : shape2 ((x :: P') ++ m :: Q) = false :=
            shape2_straddle_char hm1 hm2 h1 h5
          rw [List.cons_append] at hfalse
          exact absurd hsh (by simp [hfalse])
      · have hsh' : shape2 (x :: (P' ++ m :: Q)) = false := by simpa using hsh
        rw [decode2s_neg hsh']
        have hshP : shape2 (x :: P') = false := by
          by_cases hl : 6 ≤ (x :: P').length
          · have h2 : shape2 ((x :: P') ++ (m :: Q)) = shape2 (x :: P') :=
              shape2_append hl
            rw [List.cons_append] at h2
            rw [← h2]
            exact hsh'
          · by_contra hcon
            have hb6 : shape2 (x :: P') = true := by simpa using hcon
            have h6 := shape2_length hb6
            omega
        rw [decode2s_neg hshP]
        rw [IH P'.length (by omega) P' Q rfl]
        simp

theorem d1_char {m : Nat} (hm1 : (m == 37) = false) (hm2 : hexU m = false) :
    ∀ (n : Nat) (P Q : JStr), P.length = n →
      decode1s (P ++ m :: Q) = decode1s P ++ m :: decode1s Q := by
  intro n
  induction n using Nat.strong_induction_on with
  | _ n IH =>
    intro P Q hn
    cases P with
    | nil =>
      rw [List.nil_append, d1_lit hm1]
      rfl
    | cons x P' =>
      simp only [List.cons_append]
      have hn' : n = P'.length + 1 := by simpa using hn.symm
      by_cases hsh : shape1 (x :: (P' ++ m :: Q)) = true
      · by_cases hl : 3 ≤ (x :: P').length
        · have hshP : shape1 (x :: P') = true := by
            have h2 : shape1 ((x :: P') ++ (m :: Q)) = shape1 (x :: P') :=
              shape1_append hl
            rw [List.cons_append] at h2
            rw [← h2]
            exact hsh
          have hrep : rep1 (x :: (P' ++ m :: Q)) = rep1 (x :: P') := by
            have h2 : rep1 ((x :: P') ++ (m :: Q)) = rep1 (x :: P') := rep1_append hl
            rw [List.cons_append] at h2
            exact h2
          have hdrop : (x :: (P' ++ m :: Q)).drop 3 = (x :: P').drop 3 ++ (m :: Q) := by
            have h2 : ((x :: P') ++ (m :: Q)).drop 3 = (x :: P').drop 3 ++ (m :: Q) :=
              List.drop_append_of_le_length hl
            rw [List.cons_append] at h2
            exact h2
          rw [decode1s_pos hsh, decode1s_pos hshP, hrep, hdrop]
          rw [IH ((x :: P').drop 3).length
            (by simp only [List.length_drop, List.length_cons]; omega) _ Q rfl]
          simp [List.append_assoc]
        · have h1 : 1 ≤ (x :: P').length := by simp
          have h2 : (x :: P').length ≤ 2 := by
            simp only [List.length_cons] at hl ⊢
            omega
          have hfalse : shape1 ((x :: P') ++ m :: Q) = false :=
            shape1_straddle_char hm2 h1 h2
          rw [List.cons_append] at hfalse
          exact absurd hsh (by simp [hfalse])
      · have hsh' : shape1 (x :: (P' ++ m :: Q)) = false := by simpa using hsh
        rw [decode1s_neg hsh']
        have hshP : shape1 (x :: P') = false := by
          by_cases hl : 3 ≤ (x :: P').length
          · have h2 : shape1 ((x :: P') ++ (m :: Q)) = shape1 (x :: P') :=
              shape1_append hl
            rw [List.cons_append] at h2
            rw [← h2]
            exact hsh'
          · by_contra hcon
            have hb3 : shape1 (x :: P') = true := by simpa using hcon
            have h3 := shape1_length hb3
            omega
        rw [decode1s_neg hshP]
        rw [IH P'.length (by omega) P' Q rfl]
        simp

theorem d2_tblock {a b c d e f : Nat}
    (ha : lead3 a = true) (hb : hexU b = true) (hc : contD c = true)
    (hd : hexU d = true) (he : contD e = true) (hf : hexU f = true) :
    ∀ (n : Nat) (P Q : JStr), P.length = n →
      decode2s (P ++ 37 :: a :: b :: 37 :: c :: d :: 37 :: e :: f :: Q) =
        decode2s P ++ 37 :: a :: b :: 37 :: c :: d :: 37 :: e :: f :: decode2s Q := by
  intro n
  induction n using Nat.strong_induction_on with
  | _ n IH =>
    intro P Q hn
    cases P with
    | nil =>
      rw [List.nil_append, d2_triple ha hb hc hd he hf]
      rfl
    | cons x P' =>
      simp only [List.cons_append]
      have hn' : n = P'.length + 1 := by simpa using hn.symm
      by_cases hsh : shape2 (x :: (P' ++ 37 :: a :: b :: 37 :: c :: d :: 37 :: e :: f :: Q)) = true
      · by_cases hl : 6 ≤ (x :: P').length
        · have hshP : shape2 (x :: P') = true := by
            have h2 : shape2 ((x :: P') ++ (37 :: a :: b :: 37 :: c :: d :: 37 :: e :: f :: Q)) =
                shape2 (x :: P') := shape2_append hl
            rw [List.cons_append] at h2
            rw [← h2]
            exact hsh
          have hrep : rep2 (x :: (P' ++ 37 :: a :: b :: 37 :: c :: d :: 37 :: e :: f :: Q)) =
              rep2 (x :: P') := by
            have h2 : rep2 ((x :: P') ++ (37 :: a :: b :: 37 :: c :: d :: 37 :: e :: f :: Q)) =
                rep2 (x :: P') := rep2_append hl
            rw [List.cons_append] at h2
            exact h2
          have hdrop : (x :: (P' ++ 37 :: a :: b :: 37 :: c :: d :: 37 :: e :: f :: Q)).drop 6 =
              (x :: P').drop 6 ++ (37 :: a :: b :: 37 :: c :: d :: 37 :: e :: f :: Q) := by
            have h2 : ((x :: P') ++ (37 :: a :: b :: 37 :: c :: d :: 37 :: e :: f :: Q)).drop 6 =
                (x :: P').drop 6 ++ (37 :: a :: b :: 37 :: c :: d :: 37 :: e :: f :: Q) :=
              List.drop_append_of_le_length hl
            rw [List.cons_append] at h2
            exact h2
          rw [decode2s_pos hsh, decode2s_pos hshP, hrep, hdrop]
          rw [IH ((x :: P').drop 6).length
            (by simp only [List.length_drop, List.length_cons]; omega) _ Q rfl]
          simp [List.append_assoc]
        · have h1 : 1 ≤ (x :: P').length := by simp
          have h5 : (x :: P').length ≤ 5 := by
            simp only [List.length_cons] at hl ⊢
            omega
          have hfalse : shape2 ((x :: P') ++ 37 :: a :: b :: 37 :: c :: d :: 37 :: e :: f :: Q) =
              false := shape2_straddle_tri ha h1 h5
          rw [List.cons_append] at hfalse
          exact absurd hsh (by simp [hfalse])
      · have hsh' : shape2 (x :: (P' ++ 37 :: a :: b :: 37 :: c :: d :: 37 :: e :: f :: Q)) =
            false := by simpa using hsh
        rw [decode2s_neg hsh']
        have hshP : shape2 (x :: P') = false := by
          by_cases hl : 6 ≤ (x :: P').length
          · have h2 : shape2 ((x :: P') ++ (37 :: a :: b :: 37 :: c :: d :: 37 :: e :: f :: Q)) =
                shape2 (x :: P') := shape2_append hl
            rw [List.cons_append] at h2
            rw [← h2]
            exact hsh'
          · by_contra hcon
            have hb6 : shape2 (x :: P') = true := by simpa using hcon
            have h6 := shape2_length hb6
            omega
        rw [decode2s_neg hshP]
        rw [IH P'.length (by omega) P' Q rfl]
        simp

theorem d1_tblock {a b c d e f : Nat}
    (ha : lead3 a = true) (hb : hexU b = true) (hc : contD c = true)
    (hd : hexU d = true) (he : contD e = true) (hf : hexU f = true) :
    ∀ (n : Nat) (P Q : JStr), P.length = n →
      decode1s (P ++ 37 :: a :: b :: 37 :: c :: d :: 37 :: e :: f :: Q) =
        decode1s P ++ 37 :: a :: b :: 37 :: c :: d :: 37 :: e :: f :: decode1s Q := by
  intro n
  induction n using Nat.strong_induction_on with
  | _ n IH =>
    intro P Q hn
    cases P with
    | nil =>
      rw [List.nil_append, d1_triple ha hb hc hd he hf]
      rfl
    | cons x P' =>
      simp only [List.cons_append]
      have hn' : n = P'.length + 1 := by simpa using hn.symm
      by_cases hsh : shape1 (x :: (P' ++ 37 :: a :: b :: 37 :: c :: d :: 37 :: e :: f :: Q)) = true
      · by_cases hl : 3 ≤ (x :: P').length
        · have hshP : shape1 (x :: P') = true := by
            have h2 : shape1 ((x :: P') ++ (37 :: a :: b :: 37 :: c :: d :: 37 :: e :: f :: Q)) =
                shape1 (x :: P') := shape1_append hl
            rw [List.cons_append] at h2
            rw [← h2]
            exact hsh
          have hrep : rep1 (x :: (P' ++ 37 :: a :: b :: 37 :: c :: d :: 37 :: e :: f :: Q)) =
              rep1 (x :: P') := by
            have h2 : rep1 ((x :: P') ++ (37 :: a :: b :: 37 :: c :: d :: 37 :: e :: f :: Q)) =
                rep1 (x :: P') := rep1_append hl
            rw [List.cons_append] at h2
            exact h2
          have hdrop : (x :: (P' ++ 37 :: a :: b :: 37 :: c :: d :: 37 :: e :: f :: Q)).drop 3 =
              (x :: P').drop 3 ++ (37 :: a :: b :: 37 :: c :: d :: 37 :: e :: f :: Q) := by
            have h2 : ((x :: P') ++ (37 :: a :: b :: 37 :: c :: d :: 37 :: e :: f :: Q)).drop 3 =
                (x :: P').drop 3 ++ (37 :: a :: b :: 37 :: c :: d :: 37 :: e :: f :: Q) :=
              List.drop_append_of_le_length hl
            rw [List.cons_append] at h2
            exact h2
          rw [decode1s_pos hsh, decode1s_pos hshP, hrep, hdrop]
          rw [IH ((x :: P').drop 3).length
            (by simp only [List.length_drop, List.length_cons]; omega) _ Q rfl]
          simp [List.append_assoc]
        · have h1 : 1 ≤ (x :: P').length := by simp
          have h2 : (x :: P').length ≤ 2 := by
            simp only [List.length_cons] at hl ⊢
            omega
          have hfalse : shape1 ((x :: P') ++ 37 :: a :: b :: 37 :: c :: d :: 37 :: e :: f :: Q) =
              false := shape1_straddle_tri h1 h2
          rw [List.cons_append] at hfalse
          exact absurd hsh (by simp [hfalse])
      · have hsh' : shape1 (x :: (P' ++ 37 :: a :: b :: 37 :: c :: d :: 37 :: e :: f :: Q)) =
            false := by simpa using hsh
        rw [decode1s_neg hsh']
        have hshP : shape1 (x :: P') = false := by
          by_cases hl : 3 ≤ (x :: P').length
          · have h2 : shape1 ((x :: P') ++ (37 :: a :: b :: 37 :: c :: d :: 37 :: e :: f :: Q)) =
                shape1 (x :: P') := shape1_append hl
            rw [List.cons_append] at h2
            rw [← h2]
            exact hsh'
          · by_contra hcon
            have hb3 : shape1 (x :: P') = true := by simpa using hcon
            have h3 := shape1_length hb3
            omega
        rw [decode1s_neg hshP]
        rw [IH P'.length (by omega) P' Q rfl]
        simp

theorem c8_core {a b c d e f : Nat}
    (ha : lead3 a = true) (hb : hexU b = true) (hc : contD c = true)
    (hd : hexU d = true) (he : contD e = true) (hf : hexU f = true)
    (pre post : JStr) :
    QueryString.decode (pre ++ 37 :: a :: b :: 37 :: c :: d :: 37 :: e :: f :: post) =
      QueryString.decode pre ++ rep3 [37, a, b, 37, c, d, 37, e, f] ++
        QueryString.decode post := by
  unfold QueryString.decode
  have hps : plusSp (pre ++ 37 :: a :: b :: 37 :: c :: d :: 37 :: e :: f :: post) =
      plusSp pre ++ 37 :: a :: b :: 37 :: c :: d :: 37 :: e :: f :: plusSp post := by
    rw [plusSp_append, plusSp_triple ha hb hc hd he hf]
  rw [hps]
  rw [d3_boundary ha hb hc hd he hf (plusSp pre).length (plusSp pre) (plusSp post) rfl]
  rcases rep3_cases ha hb hc hd he hf with hr | ⟨m, hr, hm1, hm2⟩
  · rw [hr]
    simp only [List.append_assoc, List.cons_append, List.nil_append]
    rw [d2_tblock ha hb hc hd he hf (decode3s (plusSp pre)).length
      (decode3s (plusSp pre)) (decode3s (plusSp post)) rfl]
    rw [d1_tblock ha hb hc hd he hf (decode2s (decode3s (plusSp pre))).length
      (decode2s (decode3s (plusSp pre))) (decode2s (decode3s (plusSp post))) rfl]
  · rw [hr]
    have hne37 : (m == 37) = false := by
      simp only [beq_eq_false_iff_ne, ne_eq]
      omega
    have hnhex : hexU m = false := by
      have hnot : ¬ hexU m = true := by
        intro h
        rcases hexU_vals h with ⟨h1, h2⟩ | ⟨h1, h2⟩ <;> omega
      simpa using hnot
    simp only [List.append_assoc, List.cons_append, List.nil_append]
    rw [d2_char hne37 hnhex (decode3s (plusSp pre)).length
      (decode3s (plusSp pre)) (decode3s (plusSp post)) rfl]
    rw [d1_char hne37 hnhex (decode2s (decode3s (plusSp pre))).length
      (decode2s (decode3s (plusSp pre))) (decode2s (decode3s (plusSp post))) rfl]

theorem rep3_explicit (a b c d e f : Nat) :
    rep3 [37, a, b, 37, c, d, 37, e, f] =
      (if hexV a * 16 + hexV b - 224 = 0 ∧ hexV c * 16 + hexV d - 128 < 32 then
         [37, a, b, 37, c, d, 37, e, f]
       else if 65535 < (hexV a * 16 + hexV b - 224) * 4096 +
           (hexV c * 16 + hexV d - 128) * 64 + (hexV e * 16 + hexV f - 128) then
         [37, a, b, 37, c, d, 37, e, f]
       else [(hexV a * 16 + hexV b - 224) * 4096 +
           (hexV c * 16 + hexV d - 128) * 64 + (hexV e * 16 + hexV f - 128)]) := by
  rw [rep3_eq]
  simp only [List.getD_cons_succ, List.getD_cons_zero, List.take_succ_cons,
    List.take_zero, gt_iff_lt, Bool.and_eq_true, beq_iff_eq, decide_eq_true_eq]

/-- C8: for every input to decode containing three consecutive percent-escapes
whose first hex pair lies in E0-FF (digit class E-F then 0-9A-F) and whose
second and third hex pairs lie in 80-BF (digit class 8-9A-B then 0-9A-F),
decode replaces the three escapes by the single character obtained by UTF-8
bit packing (the lead byte contributes its value minus 0xE0, each
continuation its value minus 0x80, packed as 4096/64/1 weights), except that
the three escapes are left unchanged when the encoding is overlong (lead
contribution zero and second byte's low bits below 32) or the packed value
exceeds 0xFFFF; the surrounding text decodes independently. -/
theorem C8_three_escape_decode {a b c d e f : Nat}
    (ha : lead3 a = true) (hb : hexU b = true) (hc : contD c = true)
    (hd : hexU d = true) (he : contD e = true) (hf : hexU f = true)
    (pre post : JStr) :
    QueryString.decode (pre ++ 37 :: a :: b :: 37 :: c :: d :: 37 :: e :: f :: post) =
      QueryString.decode pre ++
        (if hexV a * 16 + hexV b - 224 = 0 ∧ hexV c * 16 + hexV d - 128 < 32 then
           [37, a, b, 37, c, d, 37, e, f]
         else if 65535 < (hexV a * 16 + hexV b - 224) * 4096 +
             (hexV c * 16 + hexV d - 128) * 64 + (hexV e * 16 + hexV f - 128) then
           [37, a, b, 37, c, d, 37, e, f]
         else [(hexV a * 16 + hexV b - 224) * 4096 +
             (hexV c * 16 + hexV d - 128) * 64 + (hexV e * 16 + hexV f - 128)]) ++
        QueryString.decode post := by
  rw [← rep3_explicit]
  exact c8_core ha hb hc hd he hf pre post

/-- Concrete instance of the three-escape decode theorem: the escape sequence
"%E2%84%A0" decodes to the single character U+2120. -/
theorem C8_three_escape_decode_witness :
    QueryString.decode (str "%E2%84%A0") = [8480] := by
  have h := @C8_three_escape_decode 69 50 56 52 65 48 (by decide) (by decide)
    (by decide) (by decide) (by decide) (by decide) [] []
  have e1 : str "%E2%84%A0" =
      ([] : JStr) ++ 37 :: 69 :: 50 :: 37 :: 56 :: 52 :: 37 :: 65 :: 48 :: ([] : JStr) := by
    decide
  rw [e1, h]
  decide
